/-
Verification of the Diagram Import & Graph Reconstruction Engine of the
flow-builder frontend.

The subject code is `parseVisioXml` (together with its helpers
`parseMasters` / `classifyShape` and the warning assembly of the upload
handler) and the external-generator adapter inside `handleGenerate`.
The two copies of the Visio parser (`VisioImportModal.jsx` and `main.jsx`)
are textually identical in every part modelled here, so one embedding
covers both.

Modelling conventions:
* The DOM is not embedded.  A page is the list of its `Shape` elements and
  `Connect` elements in document order; attribute values are the strings
  `getAttribute` returns, with the empty string standing for an absent
  attribute wherever the code only ever tests the value for truthiness or
  compares it with a non-empty literal (both `null` and `""` behave
  identically there).  Pin coordinates stand for the already parsed
  numeric value (`parseFloat(... || 0)` yields 0 for a missing element).
* JavaScript objects used as dictionaries are association lists with
  first-match lookup and replace-on-update, which matches assignment and
  lookup on plain objects (prototype-chain artefacts are outside the
  model).  `Map` has the same semantics.
* JavaScript numbers are modelled as rationals.  Arithmetic is expressed
  through kernel-computable wrappers (`qadd`, `qmul`, `qmax`, `jsRound`)
  that are proved/used as ordinary rational arithmetic.
* `Array.prototype.sort` with a consistent comparator is the stable sort
  for the induced total preorder; it is modelled by `List.insertionSort`,
  which is stable and places an earlier element before later equal ones,
  exactly as the ECMAScript specification requires.
* String helpers (`toLowerCase`, `trim`, `includes`, `startsWith`,
  `slice`, whitespace collapapsing) are implemented structurally over the
  character list so that every definition evaluates inside the kernel.
  `Char.isWhitespace` approximates the JS `\s` class on the ASCII range,
  which is the only range the fixed keyword tables exercise.
-/
import Mathlib

/-! ## Kernel-computable rational arithmetic -/

/-- Integer as a rational. -/
def intQ (n : Int) : ℚ := mkRat n 1

/-- Rational addition through `mkRat` (kernel-computable form of `+`). -/
def qadd (a b : ℚ) : ℚ := mkRat (a.num * (b.den : Int) + b.num * (a.den : Int)) (a.den * b.den)

/-- Rational multiplication through `mkRat` (kernel-computable form of `*`). -/
def qmul (a b : ℚ) : ℚ := mkRat (a.num * b.num) (a.den * b.den)

/-- Rational subtraction through `mkRat`. -/
def qsub (a b : ℚ) : ℚ := qadd a (mkRat (-b.num) b.den)

/-- `Math.max` on two rationals. -/
def qmax (a b : ℚ) : ℚ := if a < b then b else a

/-- `Math.round`: round half towards positive infinity. -/
def jsRound (q : ℚ) : Int := Rat.floor (qadd q (mkRat 1 2))

/-! ## String helpers (structural, kernel-computable) -/

/-- Lower-casing, character by character (`String.prototype.toLowerCase`,
ASCII range). -/
def jsToLower (s : String) : String := ⟨s.data.map Char.toLower⟩

/-- `String.prototype.trim`. -/
def jsTrim (s : String) : String :=
  ⟨((s.data.dropWhile Char.isWhitespace).reverse.dropWhile Char.isWhitespace).reverse⟩

/-- Collapse every maximal whitespace run to one space
(`.replace(/\s+/g, ' ')`). -/
def collapseChars : Bool → List Char → List Char
  | _, [] => []
  | prevWs, c :: cs =>
    if c.isWhitespace then
      if prevWs then collapseChars true cs else ' ' :: collapseChars true cs
    else c :: collapseChars false cs

def collapseWs (s : String) : String := ⟨collapseChars false s.data⟩

/-- Character-list prefix test. -/
def charsPre : List Char → List Char → Bool
  | [], _ => true
  | _ :: _, [] => false
  | a :: as, b :: bs => a == b && charsPre as bs

/-- Character-list infix test. -/
def charsSub (p : List Char) : List Char → Bool
  | [] => p.isEmpty
  | c :: rest => charsPre p (c :: rest) || charsSub p rest

/-- `String.prototype.includes`. -/
def jsIncludes (s pat : String) : Bool := charsSub pat.data s.data

/-- `String.prototype.startsWith`. -/
def jsStartsWith (s pat : String) : Bool := charsPre pat.data s.data

/-- `String.prototype.slice(0, n)`. -/
def jsSlice (s : String) (n : Nat) : String := ⟨s.data.take n⟩

/-- JavaScript string truthiness. -/
def jsTruthy (s : String) : Bool := s != ""

/-- Truthiness of a possibly-null string (`null` and `""` are falsy). -/
def jsTruthyOpt : Option String → Bool
  | some s => jsTruthy s
  | none => false

/-- `a || b` on a possibly-null string with a string default. -/
def jsOrDefault (a : Option String) (b : String) : String :=
  match a with
  | some s => if s == "" then b else s
  | none => b

/-- `v || null`: collapse a falsy looked-up value to `null`. -/
def jsOrNull : Option String → Option String
  | some s => if s == "" then none else some s
  | none => none

/-! ## Association lists standing for JS object dictionaries -/

/-- Lookup (property read). -/
def alookup {β : Type} (m : List (String × β)) (k : String) : Option β :=
  (m.find? (fun p => p.1 == k)).map (fun p => p.2)

/-- Update-or-insert with access to the current value (property write). -/
def aupsert {β : Type} (m : List (String × β)) (k : String) (f : Option β → β) :
    List (String × β) :=
  match m with
  | [] => [(k, f none)]
  | (k', v) :: rest => if k' == k then (k', f (some v)) :: rest else (k', v) :: aupsert rest k f

/-- Plain assignment `m[k] = v`. -/
def aset {β : Type} (m : List (String × β)) (k : String) (v : β) : List (String × β) :=
  aupsert m k (fun _ => v)

/-! ## Input data model (document order lists of parsed XML elements) -/

/-- One `Connect` element: `FromSheet`, `ToSheet`, `FromPart` attributes. -/
structure ConnectRec where
  fromSheet : String
  toSheet : String
  fromPart : String
deriving Repr, DecidableEq

/-- One `Shape` element: `ID`, `Type`, `Master` attributes, the text of its
`Text` child and the parsed `XForm/PinX`, `XForm/PinY` values. -/
structure ShapeIn where
  id : String
  type : String
  master : String
  text : String
  pinX : ℚ
  pinY : ℚ
deriving Repr, DecidableEq

/-- One `Master` element of the stencil catalog. -/
structure MasterIn where
  id : String
  nameU : Option String
  name : Option String
deriving Repr, DecidableEq

/-- A page: its shapes and its connection records, in document order. -/
structure PageXml where
  shapes : List ShapeIn
  connects : List ConnectRec
deriving Repr, DecidableEq

/-- Normalized master names, as stored by `parseMasters`. -/
structure MasterInfo where
  nameU : String
  name : String
deriving Repr, DecidableEq

/-- One entry of the connector wiring table (`{ from, to }`). -/
structure Wire where
  fromId : Option String
  toId : Option String
deriving Repr, DecidableEq

/-- Canonical node id template. -/
def mkNodeId (i : Nat) : String := "import-node-" ++ toString i

/-- Canonical edge id template. -/
def mkEdgeId (i : Nat) : String := "import-edge-" ++ toString i

/-! ## Fixed stencil-name tables -/

def RESULT_MASTERS : List String :=
  ["terminator", "start/end", "start", "end", "terminal"]

def CONNECTOR_MASTERS : List String :=
  ["dynamic connector", "straight connector", "curved connector",
   "elbow connector", "connector"]

/-- The inline terminator list of the shape-collection loop (same contents
as `RESULT_MASTERS`, but a separate literal in the source). -/
def TERMINATOR_KEYS : List String :=
  ["terminator", "start/end", "start", "end", "terminal"]

/-! ## Output data model -/

structure Pos where
  x : ℚ
  y : ℚ
deriving Repr, DecidableEq

structure Node where
  tempId : String
  visioId : Option String
  title : String
  type : String
  position : Pos
  body : String
  is_start : Bool
  masterName : String
  resolution : Option String
deriving Repr, DecidableEq

structure Edge where
  tempId : String
  sourceId : Option String
  targetId : Option String
  label : String
deriving Repr, DecidableEq

/-- Result of `parseVisioXml`. -/
structure VisioResult where
  nodes : List Node
  edges : List Edge
deriving Repr, DecidableEq

/-! ## Stencil catalog parser -/

def masterKeyOf (mi : MasterInfo) : String := if mi.nameU == "" then mi.name else mi.nameU

/-- `parseMasters`: build the master-id lookup (`Map.set` overwrites). -/
def parseMasters : Option (List MasterIn) → List (String × MasterInfo)
  | none => []
  | some ms =>
    ms.foldl
      (fun acc m =>
        let nameU := jsToLower (jsTrim (jsOrDefault m.nameU (jsOrDefault m.name "")))
        let name := jsToLower (jsTrim (jsOrDefault m.name ""))
        aset acc m.id ⟨nameU, name⟩)
      []

/-! ## Shape classifier -/

/-- `classifyShape`: stencil table first, label heuristics when no master
info exists. -/
def classifyShape (masterInfo : Option MasterInfo) (labelText : String) : String :=
  let label := jsToLower labelText
  match masterInfo with
  | none =>
    if jsIncludes label "escalat" || jsIncludes label "resolv" || jsStartsWith label "result" then
      "result"
    else "question"
  | some mi =>
    let masterKey := masterKeyOf mi
    if RESULT_MASTERS.contains masterKey then "result"
    else if CONNECTOR_MASTERS.contains masterKey then "connector"
    else "question"

/-! ## Wiring table builder -/

/-- Apply one `Connect` record to a wiring entry: `FromPart = "9"` sets the
source end, `FromPart = "12"` the target end, anything else leaves the
entry unchanged. -/
def wireStep (w : Wire) (c : ConnectRec) : Wire :=
  let w := if c.fromPart == "9" then { w with fromId := some c.toSheet } else w
  if c.fromPart == "12" then { w with toId := some c.toSheet } else w

def buildConnectorMapGo (acc : List (String × Wire)) : List ConnectRec → List (String × Wire)
  | [] => acc
  | c :: rest =>
    buildConnectorMapGo (aupsert acc c.fromSheet (fun w => wireStep (w.getD ⟨none, none⟩) c)) rest

/-- The `Connect` scan of `parseVisioXml`. -/
def buildConnectorMap (connects : List ConnectRec) : List (String × Wire) :=
  buildConnectorMapGo [] connects

def wireFold (w : Option Wire) (c : ConnectRec) : Option Wire :=
  some (wireStep (w.getD ⟨none, none⟩) c)

/-- `ToSheet` of the last record with the given discriminator (later records
overwrite earlier ones). -/
def lastToSheet (part : String) (l : List ConnectRec) : Option String :=
  match l.reverse.find? (fun c => c.fromPart == part) with
  | some c => some c.toSheet
  | none => none

/-! ## Shape collection (step 2 of `parseVisioXml`) -/

structure RawShape where
  shapeId : String
  masterInfo : Option MasterInfo
  masterKey : String
  isTerminator : Bool
  label : String
  pinX : ℚ
  pinY : ℚ
deriving Repr, DecidableEq

structure RawEdge where
  visioSrcId : String
  visioTgtId : String
  tempId : String
  label : String
deriving Repr, DecidableEq

/-- `masterId ? masterMap.get(masterId) : null`. -/
def shapeMasterInfo (masterMap : List (String × MasterInfo)) (shape : ShapeIn) :
    Option MasterInfo :=
  if shape.master == "" then none else alookup masterMap shape.master

/-- Trimmed, whitespace-collapsed label text of a shape. -/
def shapeLabelOf (shape : ShapeIn) : String := collapseWs (jsTrim shape.text)

def shapeMasterKey (masterMap : List (String × MasterInfo)) (shape : ShapeIn) : String :=
  match shapeMasterInfo masterMap shape with
  | some mi => masterKeyOf mi
  | none => ""

/-- `isEdgeType || isConnectorMaster || connectorMap[shapeId]`. -/
def shapeIsConnector (masterMap : List (String × MasterInfo))
    (connectorMap : List (String × Wire)) (shape : ShapeIn) : Bool :=
  (shape.type == "Edge") ||
    (match shapeMasterInfo masterMap shape with
     | some mi => CONNECTOR_MASTERS.contains (masterKeyOf mi)
     | none => false) ||
    (alookup connectorMap shape.id).isSome

/-- `connectorMap[shapeId]?.from && connectorMap[shapeId]?.to`. -/
def shapeWireResolved (connectorMap : List (String × Wire)) (shape : ShapeIn) : Bool :=
  match alookup connectorMap shape.id with
  | some w => jsTruthyOpt w.fromId && jsTruthyOpt w.toId
  | none => false

/-- The transient record pushed onto `rawShapes`. -/
def mkRawShape (masterMap : List (String × MasterInfo)) (shape : ShapeIn) : RawShape :=
  { shapeId := shape.id
    masterInfo := shapeMasterInfo masterMap shape
    masterKey := shapeMasterKey masterMap shape
    isTerminator := TERMINATOR_KEYS.contains (shapeMasterKey masterMap shape)
    label := shapeLabelOf shape
    pinX := shape.pinX
    pinY := shape.pinY }

def collectGo (masterMap : List (String × MasterInfo)) (connectorMap : List (String × Wire)) :
    List ShapeIn → Nat → List RawShape × List RawEdge
  | [], _ => ([], [])
  | shape :: rest, ecount =>
    if shapeIsConnector masterMap connectorMap shape then
      match alookup connectorMap shape.id with
      | some w =>
        if jsTruthyOpt w.fromId && jsTruthyOpt w.toId then
          let e : RawEdge :=
            { visioSrcId := w.fromId.getD ""
              visioTgtId := w.toId.getD ""
              tempId := mkEdgeId ecount
              label := shapeLabelOf shape }
          let r := collectGo masterMap connectorMap rest (ecount + 1)
          (r.1, e :: r.2)
        else collectGo masterMap connectorMap rest ecount
      | none => collectGo masterMap connectorMap rest ecount
    else if shapeLabelOf shape == "" then collectGo masterMap connectorMap rest ecount
    else
      let r := collectGo masterMap connectorMap rest ecount
      (mkRawShape masterMap shape :: r.1, r.2)

/-! ## Start-node inference (step 3 of `parseVisioXml`) -/

/-- The comparator `(a, b) => b.pinY - a.pinY || a.pinX - b.pinX` as the
total preorder "`a` is sorted no later than `b`". -/
def shapeBefore (a b : RawShape) : Prop :=
  b.pinY < a.pinY ∨ (a.pinY = b.pinY ∧ a.pinX ≤ b.pinX)

instance : DecidableRel shapeBefore := fun a b => by
  unfold shapeBefore; infer_instance

instance : IsTotal RawShape shapeBefore where
  total a b := by
    unfold shapeBefore
    rcases lt_trichotomy a.pinY b.pinY with h | h | h
    · exact Or.inr (Or.inl h)
    · rcases le_total a.pinX b.pinX with hx | hx
      · exact Or.inl (Or.inr ⟨h, hx⟩)
      · exact Or.inr (Or.inr ⟨h.symm, hx⟩)
    · exact Or.inl (Or.inl h)

instance : IsTrans RawShape shapeBefore where
  trans a b c hab hbc := by
    unfold shapeBefore at *
    rcases hab with h1 | ⟨h1, h1x⟩ <;> rcases hbc with h2 | ⟨h2, h2x⟩
    · exact Or.inl (h2.trans h1)
    · exact Or.inl (h2 ▸ h1)
    · exact Or.inl (h1 ▸ h2)
    · exact Or.inr ⟨h1.trans h2, h1x.trans h2x⟩

/-- Stable sort standing for `Array.prototype.sort`. -/
def jsSortShapes (l : List RawShape) : List RawShape := List.insertionSort shapeBefore l

def allTargetIds (edges : List RawEdge) : List String :=
  (edges.map (fun e => e.visioTgtId)).filter (fun s => jsTruthy s)

def noIncomingOf (rawShapes : List RawShape) (targets : List String) : List RawShape :=
  rawShapes.filter (fun s => !(targets.contains s.shapeId))

/-- `noIncoming.find(isTerminator) || noIncoming.sort(cmp)[0] || rawShapes.sort(cmp)[0]`. -/
def chooseStart (noIncoming rawShapes : List RawShape) : Option RawShape :=
  match noIncoming.find? (fun s => s.isTerminator) with
  | some s => some s
  | none =>
    match (jsSortShapes noIncoming).head? with
    | some s => some s
    | none => (jsSortShapes rawShapes).head?

/-- `startShape?.shapeId || null`. -/
def startIdOf : Option RawShape → Option String
  | some s => if s.shapeId == "" then none else some s.shapeId
  | none => none

/-! ## Node building (step 4 of `parseVisioXml`) -/

/-- The type override of step 4: the start shape is always a `question`,
other terminators are `result`, everything else is classified. -/
def nodeTypeOf (startShapeId : Option String) (s : RawShape) : String :=
  if startShapeId == some s.shapeId then "question"
  else if s.isTerminator then "result"
  else classifyShape s.masterInfo s.label

/-- The node built from one retained shape (scale by 96 units per inch,
flip `PinY` against the fixed 11-inch page height, clamp at 20). -/
def mkVisioNode (startShapeId : Option String) (s : RawShape) (nodeIndex : Nat) : Node :=
  let x := jsRound (qmul s.pinX (intQ 96))
  let y := jsRound (qmul (qsub (intQ 11) s.pinY) (intQ 96))
  { tempId := mkNodeId nodeIndex
    visioId := some s.shapeId
    title := s.label
    type := nodeTypeOf startShapeId s
    position := { x := intQ (max 20 x), y := intQ (max 20 y) }
    body := ""
    is_start := startShapeId == some s.shapeId
    masterName := if s.masterKey == "" then "unknown" else s.masterKey
    resolution := none }

def buildNodesGo (startShapeId : Option String) :
    List RawShape → Nat → List (String × String) → List Node × List (String × String)
  | [], _, idMap => ([], idMap)
  | s :: rest, nodeIndex, idMap =>
    if nodeTypeOf startShapeId s == "connector" then buildNodesGo startShapeId rest nodeIndex idMap
    else
      let r := buildNodesGo startShapeId rest (nodeIndex + 1)
        (aset idMap s.shapeId (mkNodeId nodeIndex))
      (mkVisioNode startShapeId s nodeIndex :: r.1, r.2)

/-! ## Edge resolution and start fallback -/

def resolveEdges (idMap : List (String × String)) (rawEdges : List RawEdge) : List Edge :=
  (rawEdges.map (fun e =>
    { tempId := e.tempId
      sourceId := jsOrNull (alookup idMap e.visioSrcId)
      targetId := jsOrNull (alookup idMap e.visioTgtId)
      label := e.label })).filter (fun e => jsTruthyOpt e.sourceId && jsTruthyOpt e.targetId)

/-- The comparator `(a, b) => a.position.y - b.position.y || a.position.x - b.position.x`. -/
def nodeBefore (a b : Node) : Prop :=
  a.position.y < b.position.y ∨ (a.position.y = b.position.y ∧ a.position.x ≤ b.position.x)

instance : DecidableRel nodeBefore := fun a b => by
  unfold nodeBefore; infer_instance

instance : IsTotal Node nodeBefore where
  total a b := by
    unfold nodeBefore
    rcases lt_trichotomy a.position.y b.position.y with h | h | h
    · exact Or.inl (Or.inl h)
    · rcases le_total a.position.x b.position.x with hx | hx
      · exact Or.inl (Or.inr ⟨h, hx⟩)
      · exact Or.inr (Or.inr ⟨h.symm, hx⟩)
    · exact Or.inr (Or.inl h)

instance : IsTrans Node nodeBefore where
  trans a b c hab hbc := by
    unfold nodeBefore at *
    rcases hab with h1 | ⟨h1, h1x⟩ <;> rcases hbc with h2 | ⟨h2, h2x⟩
    · exact Or.inl (h1.trans h2)
    · exact Or.inl (h2 ▸ h1)
    · exact Or.inl (h1 ▸ h2)
    · exact Or.inr ⟨h1.trans h2, h1x.trans h2x⟩

def jsSortNodes (l : List Node) : List Node := List.insertionSort nodeBefore l

/-- `nodes.find(n => n.tempId === tid)` followed by the in-place mutation
`fallback.is_start = true; fallback.type = 'question'`. -/
def setStartFirst : List Node → String → List Node
  | [], _ => []
  | n :: rest, tid =>
    if n.tempId == tid then { n with is_start := true, type := "question" } :: rest
    else n :: setStartFirst rest tid

/-- Step 4 fallback of `parseVisioXml`. -/
def applyFallback (nodes : List Node) : List Node :=
  if !(nodes.any (fun n => n.is_start)) && decide (0 < nodes.length) then
    match (jsSortNodes nodes).head? with
    | some m => setStartFirst nodes m.tempId
    | none => nodes
  else nodes

/-! ## The assembled Visio parser, staged for the statements -/

def collectedOf (page : PageXml) (masters : Option (List MasterIn)) :
    List RawShape × List RawEdge :=
  collectGo (parseMasters masters) (buildConnectorMap page.connects) page.shapes 0

def rawShapesOf (page : PageXml) (masters : Option (List MasterIn)) : List RawShape :=
  (collectedOf page masters).1

def rawEdgesOf (page : PageXml) (masters : Option (List MasterIn)) : List RawEdge :=
  (collectedOf page masters).2

def noIncomingShapes (page : PageXml) (masters : Option (List MasterIn)) : List RawShape :=
  noIncomingOf (rawShapesOf page masters) (allTargetIds (rawEdgesOf page masters))

def startShapeOf (page : PageXml) (masters : Option (List MasterIn)) : Option RawShape :=
  chooseStart (noIncomingShapes page masters) (rawShapesOf page masters)

def startShapeIdOf (page : PageXml) (masters : Option (List MasterIn)) : Option String :=
  startIdOf (startShapeOf page masters)

/-- The shape list actually iterated when building nodes: the candidate
fallback branch of the start selection sorts `rawShapes` **in place**, so
document order survives only when some shape had no incoming wire. -/
def orderedShapesOf (page : PageXml) (masters : Option (List MasterIn)) : List RawShape :=
  if (noIncomingShapes page masters).isEmpty then jsSortShapes (rawShapesOf page masters)
  else rawShapesOf page masters

def builtOf (page : PageXml) (masters : Option (List MasterIn)) :
    List Node × List (String × String) :=
  buildNodesGo (startShapeIdOf page masters) (orderedShapesOf page masters) 0 []

def preNodesOf (page : PageXml) (masters : Option (List MasterIn)) : List Node :=
  (builtOf page masters).1

def idMapOf (page : PageXml) (masters : Option (List MasterIn)) : List (String × String) :=
  (builtOf page masters).2

def validEdgesOf (page : PageXml) (masters : Option (List MasterIn)) : List Edge :=
  resolveEdges (idMapOf page masters) (rawEdgesOf page masters)

/-- The whole of `parseVisioXml`. -/
def parseVisioXml (page : PageXml) (masters : Option (List MasterIn)) : VisioResult :=
  { nodes := applyFallback (preNodesOf page masters), edges := validEdgesOf page masters }

/-! ## Upload handler warning assembly (`handleFile` / `handleVisioFile`) -/

def noMastersMsg : String :=
  "No masters file found — shape types will be guessed from labels only."

def noConnectorsMsg : String :=
  "No connectors found — you can add connections manually in the next step."

def noStartMsg : String :=
  "Could not detect a start node — please mark one manually."

def noShapesMsg : String :=
  "No shapes with text found on this page. Make sure your shapes have labels."

def detectedMsg (questionCount resultCount : Nat) : String :=
  "ℹ Detected " ++ toString questionCount ++ " question node" ++
    (if questionCount != 1 then "s" else "") ++ " and " ++ toString resultCount ++
    " result node" ++ (if resultCount != 1 then "s" else "") ++ " from shape types."

/-- The accumulated warning list of the upload handler, in source push
order: missing masters file, empty edge list, missing start node (checked
after the parser already ran its fallback), detected type counts. -/
def visioWarnings (masters : Option (List MasterIn)) (r : VisioResult) : List String :=
  (if masters.isSome then [] else [noMastersMsg]) ++
    (if r.edges.length == 0 then [noConnectorsMsg] else []) ++
    (if !(r.nodes.any (fun n => n.is_start)) then [noStartMsg] else []) ++
    (if masters.isSome then
      [detectedMsg ((r.nodes.filter (fun n => n.type == "question")).length)
        ((r.nodes.filter (fun n => n.type == "result")).length)]
    else [])

/-- The pure part of the upload handler: parse the first page, fail when no
labeled shape survived, and accumulate the warnings in source order. -/
def handleVisioFile (page : PageXml) (masters : Option (List MasterIn)) :
    Except String (VisioResult × List String) :=
  if (parseVisioXml page masters).nodes.length == 0 then Except.error noShapesMsg
  else Except.ok (parseVisioXml page masters, visioWarnings masters (parseVisioXml page masters))

/-! ## External-generator adapter (`handleGenerate`) -/

/-- A node of the generation-service response.  `id` holds the string form
of the provided identifier (`String(n.id)`), `none` when the id is absent;
the numeric fields hold `position.x` / `position.y` when they are numbers;
`is_start` is the truthiness of the provided flag. -/
structure GenNode where
  id : Option String
  title : Option String
  type : Option String
  body : Option String
  description : Option String
  x : Option ℚ
  y : Option ℚ
  is_start : Bool
  resolution : Option String
deriving Repr, DecidableEq

/-- An edge of the response; `source` / `target` hold `String(e.source)` /
`String(e.target)`. -/
structure GenEdge where
  source : String
  target : String
  label : Option String
deriving Repr, DecidableEq

structure GenData where
  nodes : List GenNode
  edges : List GenEdge
  suggestions : List String
deriving Repr, DecidableEq

structure GenResult where
  nodes : List Node
  edges : List Edge
  warnings : List String
deriving Repr, DecidableEq

/-- One step of the adapter id-map build: the string form of a declared
id always overwrites, the index-based fallback never overwrites. -/
def idMapStep (m : List (String × String)) (p : Nat × GenNode) : List (String × String) :=
  let m1 :=
    match p.2.id with
    | some s => aset m s (mkNodeId p.1)
    | none => m
  match alookup m1 (toString p.1) with
  | some _ => m1
  | none => aset m1 (toString p.1) (mkNodeId p.1)

/-- The id → tempId map of the adapter: the string form of a declared id,
plus an index-based fallback that never overwrites an existing key. -/
def buildIdMap (ns : List GenNode) : List (String × String) :=
  ns.enum.foldl idMapStep []

def dfltX (i : Nat) : ℚ := intQ ((i % 4) * 300 + 60)

def dfltY (i : Nat) : ℚ := intQ ((i / 4) * 180 + 60)

/-- One normalized adapter node. -/
def mkGenNode (p : Nat × GenNode) : Node :=
  { tempId := mkNodeId p.1
    visioId := none
    title := jsSlice (jsOrDefault p.2.title ("Step " ++ toString (p.1 + 1))) 80
    type := if p.2.type == some "result" then "result" else "question"
    body := jsOrDefault p.2.body (jsOrDefault p.2.description "")
    position := { x := qmax (intQ 20) (p.2.x.getD (dfltX p.1))
                  y := qmax (intQ 20) (p.2.y.getD (dfltY p.1)) }
    is_start := p.2.is_start
    masterName := "AI-generated"
    resolution := some (jsOrDefault p.2.resolution "") }

/-- Node normalization of the adapter. -/
def normalizeGenNodes (ns : List GenNode) : List Node :=
  ns.enum.map mkGenNode

/-- `nodes[0].is_start = true`. -/
def setHeadStart : List Node → List Node
  | [] => []
  | n :: rest => { n with is_start := true } :: rest

def genDroppedMsg (droppedEdgeCount : Nat) : String :=
  toString droppedEdgeCount ++
    " connection(s) could not be mapped and were skipped. You can add them manually."

def noNodesMsg : String :=
  "AI returned no nodes. Please try rephrasing your description."

/-- The adapter node list after the forced-start rule
(`if (nodes.length > 0 && !nodes.some(n => n.is_start)) nodes[0].is_start = true`). -/
def genNodesOf (data : GenData) : List Node :=
  if decide (0 < (normalizeGenNodes data.nodes).length) &&
      !((normalizeGenNodes data.nodes).any (fun n => n.is_start)) then
    setHeadStart (normalizeGenNodes data.nodes)
  else normalizeGenNodes data.nodes

/-- The adapter edge list: endpoints resolved through the id map, edges
with an unresolved endpoint dropped. -/
def genEdgesOf (data : GenData) : List Edge :=
  (data.edges.enum.map (fun p =>
    { tempId := mkEdgeId p.1
      sourceId := alookup (buildIdMap data.nodes) p.2.source
      targetId := alookup (buildIdMap data.nodes) p.2.target
      label := jsOrDefault p.2.label "" })).filter
    (fun e => jsTruthyOpt e.sourceId && jsTruthyOpt e.targetId)

/-- The adapter warning list: AI suggestions plus the dropped-edge count. -/
def genWarningsOf (data : GenData) : List String :=
  let droppedEdgeCount := data.edges.length - (genEdgesOf data).length
  data.suggestions ++ (if 0 < droppedEdgeCount then [genDroppedMsg droppedEdgeCount] else [])

/-- The adapter inside `handleGenerate`, from the parsed response body to
the reviewed graph (`none` models the thrown no-nodes error). -/
def handleGenerate (data : GenData) : Option GenResult :=
  if (genNodesOf data).length == 0 then none
  else some { nodes := genNodesOf data, edges := genEdgesOf data, warnings := genWarningsOf data }

/-! ## Definitions written from the specification text (for refinement
comparisons only, never used by the embedding itself) -/

/-- Modelled from the spec: §4.7 claims position coordinates are clamped
"to a minimum of 0" after replacing undefined ones by a computed default. -/
def specClampZero (provided : Option ℚ) (dflt : ℚ) : ℚ :=
  qmax (intQ 0) (provided.getD dflt)

/-- Number of start-flagged nodes. -/
def countStarts (ns : List Node) : Nat := (ns.filter (fun n => n.is_start)).length

/-! ## Concrete inputs for the counterexamples and witnesses -/

def mkShape (i lbl master : String) (px py : ℚ) : ShapeIn :=
  { id := i, type := "Shape", master := master, text := lbl, pinX := px, pinY := py }

def mkConnShape (i : String) : ShapeIn :=
  { id := i, type := "Edge", master := "", text := "", pinX := intQ 0, pinY := intQ 0 }

/-- Scenario B of the spec: labels Begin / Card valid? / Resolved, wiring
A→B and B→C, masters catalog absent. -/
def pageScenarioB : PageXml :=
  { shapes := [mkShape "1" "Begin" "m1" (intQ 1) (intQ 9),
               mkShape "2" "Card valid?" "m2" (intQ 1) (intQ 6),
               mkShape "3" "Resolved" "m3" (intQ 1) (intQ 2),
               mkConnShape "4", mkConnShape "5"],
    connects := [⟨"4", "1", "9"⟩, ⟨"4", "2", "12"⟩, ⟨"5", "2", "9"⟩, ⟨"5", "3", "12"⟩] }

/-- A fully cyclic page: both shapes have an incoming wire, so the start
selection falls back to sorting all shapes in place. -/
def pageCyclic : PageXml :=
  { shapes := [mkShape "1" "Alpha" "" (intQ 1) (intQ 1),
               mkShape "2" "Beta" "" (intQ 1) (intQ 5),
               mkConnShape "3", mkConnShape "4"],
    connects := [⟨"3", "1", "9"⟩, ⟨"3", "2", "12"⟩, ⟨"4", "2", "9"⟩, ⟨"4", "1", "12"⟩] }

/-- A single labeled shape whose `ID` attribute is empty: the selected start
shape id collapses to `null`, so no node is marked and the post-assembly
fallback runs. -/
def pageEmptyId : PageXml :=
  { shapes := [mkShape "" "Solo" "" (intQ 1) (intQ 1)], connects := [] }

/-- Two labeled shapes, one fully wired connector (shape 3) and one
connector whose `to` record is missing (shape 4). -/
def pageHalfWire : PageXml :=
  { shapes := [mkShape "1" "A" "" (intQ 1) (intQ 2),
               mkShape "2" "B" "" (intQ 1) (intQ 1),
               mkConnShape "3", mkConnShape "4"],
    connects := [⟨"3", "1", "9"⟩, ⟨"3", "2", "12"⟩, ⟨"4", "1", "9"⟩] }

/-- A page whose unique entry point carries an explicitly-classified
terminator stencil. -/
def pageResultStart : PageXml :=
  { shapes := [mkShape "1" "End here" "m1" (intQ 1) (intQ 9),
               mkShape "2" "Next" "" (intQ 1) (intQ 5),
               mkConnShape "3"],
    connects := [⟨"3", "1", "9"⟩, ⟨"3", "2", "12"⟩] }

def mastersResultStart : List MasterIn :=
  [{ id := "m1", nameU := some "Terminator", name := none }]

def mkGenInput (idv : Option String) (st : Bool) : GenNode :=
  { id := idv, title := some "Step", type := none, body := none, description := none,
    x := none, y := none, is_start := st, resolution := none }

/-- Generation-service response flagging two nodes as start. -/
def dataTwoStarts : GenData :=
  { nodes := [mkGenInput none true, mkGenInput none true], edges := [], suggestions := [] }

/-- Generation-service response flagging exactly one node as start. -/
def dataOneStart : GenData :=
  { nodes := [mkGenInput none true, mkGenInput none false], edges := [], suggestions := [] }

/-- Generation-service response with a negative x coordinate. -/
def dataNegPos : GenData :=
  { nodes := [{ id := none, title := some "T", type := none, body := none, description := none,
                x := some (intQ (-5)), y := some (intQ 7), is_start := true,
                resolution := none }],
    edges := [], suggestions := [] }

/-- Scenario D of the spec: the edge references node 2 by its declared id. -/
def dataScenarioD : GenData :=
  { nodes := [mkGenInput (some "a") true, mkGenInput (some "b") false,
              mkGenInput (some "node-2") false],
    edges := [⟨"2", "node-2", none⟩], suggestions := [] }

/-- The adapter output for `dataOneStart` (used to instantiate C1). -/
def genOneStartResult : GenResult :=
  { nodes := genNodesOf dataOneStart, edges := genEdgesOf dataOneStart,
    warnings := genWarningsOf dataOneStart }

/-- The first resolved edge of Scenario B (used to instantiate C2). -/
def edgeB0 : Edge :=
  { tempId := mkEdgeId 0, sourceId := some (mkNodeId 0), targetId := some (mkNodeId 1),
    label := "" }

/-- The adapter output for `dataNegPos` (used to instantiate C8). -/
def genNegPosResult : GenResult :=
  { nodes := genNodesOf dataNegPos, edges := genEdgesOf dataNegPos,
    warnings := genWarningsOf dataNegPos }

/-! ## Arithmetic wrappers agree with rational arithmetic -/

theorem den_cast_ne_zero (a : ℚ) : ((a.den : ℚ)) ≠ 0 := by
  exact_mod_cast a.den_nz

theorem num_eq_mul_den (a : ℚ) : (a.num : ℚ) = a * a.den :=
  (div_eq_iff (den_cast_ne_zero a)).mp (Rat.num_div_den a)

theorem qadd_eq (a b : ℚ) : qadd a b = a + b := by
  unfold qadd
  rw [Rat.mkRat_eq_div]
  push_cast
  rw [div_eq_iff (mul_ne_zero (den_cast_ne_zero a) (den_cast_ne_zero b)),
    num_eq_mul_den a, num_eq_mul_den b]
  ring

theorem qmul_eq (a b : ℚ) : qmul a b = a * b := by
  unfold qmul
  rw [Rat.mkRat_eq_div]
  push_cast
  rw [div_eq_iff (mul_ne_zero (den_cast_ne_zero a) (den_cast_ne_zero b)),
    num_eq_mul_den a, num_eq_mul_den b]
  ring

theorem qsub_eq (a b : ℚ) : qsub a b = a - b := by
  unfold qsub
  rw [qadd_eq, Rat.mkRat_eq_div]
  push_cast
  rw [neg_div, Rat.num_div_den, sub_eq_add_neg]

theorem intQ_eq (n : Int) : intQ n = (n : ℚ) := by
  unfold intQ
  rw [Rat.mkRat_eq_div]
  norm_num

theorem qmax_eq (a b : ℚ) : qmax a b = max a b := by
  unfold qmax
  rcases le_or_lt b a with h | h
  · rw [if_neg (not_lt.mpr h), max_eq_left h]
  · rw [if_pos h, max_eq_right h.le]

/-! ## Lemmas about the dictionary model -/

theorem alookup_nil {β : Type} (k : String) : alookup ([] : List (String × β)) k = none := rfl

theorem alookup_cons {β : Type} (k' : String) (v : β) (m : List (String × β)) (k : String) :
    alookup ((k', v) :: m) k = if k' == k then some v else alookup m k := by
  unfold alookup
  by_cases h : (k' == k) = true
  · rw [if_pos h]
    have hf : List.find? (fun p => p.1 == k) ((k', v) :: m) = some (k', v) :=
      List.find?_cons_of_pos _ (by simpa using h)
    rw [hf]
    rfl
  · rw [if_neg h]
    have hf : List.find? (fun p => p.1 == k) ((k', v) :: m) =
        List.find? (fun p => p.1 == k) m :=
      List.find?_cons_of_neg _ (by simpa using h)
    rw [hf]

theorem alookup_aupsert_self {β : Type} (m : List (String × β)) (k : String) (f : Option β → β) :
    alookup (aupsert m k f) k = some (f (alookup m k)) := by
  induction m with
  | nil => simp [aupsert, alookup_cons, alookup_nil]
  | cons p rest ih =>
    obtain ⟨k', v⟩ := p
    unfold aupsert
    by_cases h : k' == k
    · rw [if_pos h, alookup_cons, if_pos h, alookup_cons, if_pos h]
    · rw [if_neg h, alookup_cons, if_neg h, alookup_cons, if_neg h, ih]

theorem alookup_aupsert_ne {β : Type} (m : List (String × β)) (k : String) (f : Option β → β)
    (k' : String) (h : k' ≠ k) : alookup (aupsert m k f) k' = alookup m k' := by
  induction m with
  | nil =>
    simp only [aupsert, alookup_cons, alookup_nil]
    rw [if_neg (by simpa using h.symm)]
  | cons p rest ih =>
    obtain ⟨k0, v⟩ := p
    unfold aupsert
    by_cases h0 : k0 == k
    · rw [if_pos h0, alookup_cons, alookup_cons]
      have : (k0 == k') = false := by
        have : k0 = k := by simpa using h0
        subst this
        simpa using fun hc => h hc.symm
      rw [this]
      simp
    · rw [if_neg h0, alookup_cons, alookup_cons, ih]

theorem alookup_aset_cases {β : Type} (m : List (String × β)) (k : String) (v : β)
    (k' : String) (w : β) (h : alookup (aset m k v) k' = some w) :
    w = v ∨ alookup m k' = some w := by
  by_cases hk : k' = k
  · subst hk
    rw [aset, alookup_aupsert_self] at h
    exact Or.inl (by simpa using h.symm)
  · rw [aset, alookup_aupsert_ne _ _ _ _ hk] at h
    exact Or.inr h

theorem mem_keys_aupsert {β : Type} (m : List (String × β)) (k : String) (f : Option β → β)
    (x : String) (hx : x ∈ (aupsert m k f).map Prod.fst) :
    x ∈ m.map Prod.fst ∨ x = k := by
  induction m with
  | nil => simpa [aupsert] using hx
  | cons p rest ih =>
    obtain ⟨k0, v⟩ := p
    unfold aupsert at hx
    by_cases h0 : k0 == k
    · rw [if_pos h0] at hx
      simp only [List.map_cons, List.mem_cons] at hx ⊢
      tauto
    · rw [if_neg h0] at hx
      simp only [List.map_cons, List.mem_cons] at hx ⊢
      rcases hx with h | h
      · exact Or.inl (Or.inl h)
      · rcases ih h with h' | h'
        · exact Or.inl (Or.inr h')
        · exact Or.inr h'

theorem keys_nodup_aupsert {β : Type} (m : List (String × β)) (k : String) (f : Option β → β)
    (h : (m.map Prod.fst).Nodup) : ((aupsert m k f).map Prod.fst).Nodup := by
  induction m with
  | nil => simp [aupsert]
  | cons p rest ih =>
    obtain ⟨k0, v⟩ := p
    simp only [List.map_cons, List.nodup_cons] at h
    unfold aupsert
    by_cases h0 : k0 == k
    · rw [if_pos h0]
      simpa using h
    · rw [if_neg h0]
      simp only [List.map_cons, List.nodup_cons]
      refine ⟨fun hc => ?_, ih h.2⟩
      rcases mem_keys_aupsert rest k f k0 hc with hin | heq
      · exact h.1 hin
      · exact absurd (by simpa using heq) (by simpa using h0)

/-! ## Head of the stable sort is minimal -/

theorem sortedHeadMin {α : Type} (r : α → α → Prop) [DecidableRel r] [IsTotal α r]
    [IsTrans α r] (l : List α) (h : l ≠ []) :
    ∃ a t, List.insertionSort r l = a :: t ∧ a ∈ l ∧ ∀ x ∈ l, r a x := by
  have hp := List.perm_insertionSort r l
  have hs := List.sorted_insertionSort r l
  cases hsort : List.insertionSort r l with
  | nil =>
    exact absurd (List.Perm.eq_nil (hsort ▸ hp.symm)) h
  | cons a t =>
    refine ⟨a, t, rfl, ?_, ?_⟩
    · exact hp.mem_iff.mp (hsort ▸ List.mem_cons_self a t)
    · intro x hx
      have hx' : x ∈ a :: t := hsort ▸ hp.symm.mem_iff.mp hx
      rcases List.mem_cons.mp hx' with hxa | hxt
      · subst hxa
        rcases IsTotal.total (r := r) x x with h' | h' <;> exact h'
      · rw [hsort] at hs
        exact List.rel_of_sorted_cons hs x hxt

/-! ## Lemmas about the start-flag mutations -/

theorem setStartFirst_map_tempId (ns : List Node) (tid : String) :
    (setStartFirst ns tid).map Node.tempId = ns.map Node.tempId := by
  induction ns with
  | nil => rfl
  | cons n rest ih =>
    unfold setStartFirst
    by_cases h : n.tempId == tid
    · rw [if_pos h]
      simp
    · rw [if_neg h]
      simpa using ih

theorem setStartFirst_map_visioId (ns : List Node) (tid : String) :
    (setStartFirst ns tid).map Node.visioId = ns.map Node.visioId := by
  induction ns with
  | nil => rfl
  | cons n rest ih =>
    unfold setStartFirst
    by_cases h : n.tempId == tid
    · rw [if_pos h]
      simp
    · rw [if_neg h]
      simpa using ih

theorem mem_setStartFirst (ns : List Node) (tid : String) (n' : Node)
    (h : n' ∈ setStartFirst ns tid) :
    n' ∈ ns ∨ ∃ n ∈ ns, n' = { n with is_start := true, type := "question" } := by
  induction ns with
  | nil => simp [setStartFirst] at h
  | cons n rest ih =>
    unfold setStartFirst at h
    by_cases hn : n.tempId == tid
    · rw [if_pos hn] at h
      rcases List.mem_cons.mp h with h' | h'
      · exact Or.inr ⟨n, List.mem_cons_self n rest, h'⟩
      · exact Or.inl (List.mem_cons_of_mem n h')
    · rw [if_neg hn] at h
      rcases List.mem_cons.mp h with h' | h'
      · exact Or.inl (h' ▸ List.mem_cons_self n rest)
      · rcases ih h' with h'' | ⟨n0, hn0, he⟩
        · exact Or.inl (List.mem_cons_of_mem n h'')
        · exact Or.inr ⟨n0, List.mem_cons_of_mem n hn0, he⟩

theorem setStartFirst_sets (ns : List Node) (tid : String) (hin : tid ∈ ns.map Node.tempId) :
    ∃ n' ∈ setStartFirst ns tid,
      n'.tempId = tid ∧ n'.is_start = true ∧ n'.type = "question" := by
  induction ns with
  | nil => simp at hin
  | cons n rest ih =>
    unfold setStartFirst
    by_cases hn : n.tempId == tid
    · rw [if_pos hn]
      have : n.tempId = tid := by simpa using hn
      exact ⟨_, List.mem_cons_self _ _, by simpa using this, rfl, rfl⟩
    · rw [if_neg hn]
      have : tid ∈ rest.map Node.tempId := by
        rcases List.mem_map.mp hin with ⟨n0, hn0, he⟩
        rcases List.mem_cons.mp hn0 with h' | h'
        · exact absurd (by rw [h'] at he; simpa using he) (by simpa using hn)
        · exact List.mem_map.mpr ⟨n0, h', he⟩
      rcases ih this with ⟨n', hn', hp⟩
      exact ⟨n', List.mem_cons_of_mem n hn', hp⟩

theorem countStarts_setStartFirst_of_zero (ns : List Node) (tid : String)
    (hz : countStarts ns = 0) (hin : tid ∈ ns.map Node.tempId) :
    countStarts (setStartFirst ns tid) = 1 := by
  induction ns with
  | nil => simp at hin
  | cons n rest ih =>
    unfold countStarts at hz ⊢
    simp only [List.filter_cons] at hz
    by_cases hstart : n.is_start
    · rw [if_pos (by simpa using hstart)] at hz
      simp at hz
    · rw [if_neg (by simpa using hstart)] at hz
      unfold setStartFirst
      by_cases hn : n.tempId == tid
      · rw [if_pos hn]
        simp only [List.filter_cons]
        rw [if_pos (by simp)]
        have : (rest.filter (fun n => n.is_start)) = [] := List.length_eq_zero.mp hz
        simp [this]
      · rw [if_neg hn]
        simp only [List.filter_cons]
        rw [if_neg (by simpa using hstart)]
        have : tid ∈ rest.map Node.tempId := by
          rcases List.mem_map.mp hin with ⟨n0, hn0, he⟩
          rcases List.mem_cons.mp hn0 with h' | h'
          · exact absurd (by rw [h'] at he; simpa using he) (by simpa using hn)
          · exact List.mem_map.mpr ⟨n0, h', he⟩
        exact ih hz this

theorem countStarts_setStartFirst_pos (ns : List Node) (tid : String)
    (hin : tid ∈ ns.map Node.tempId) : 0 < countStarts (setStartFirst ns tid) := by
  rcases setStartFirst_sets ns tid hin with ⟨n', hn', _, hs, _⟩
  unfold countStarts
  have : n' ∈ (setStartFirst ns tid).filter (fun n => n.is_start) :=
    List.mem_filter.mpr ⟨hn', by simpa using hs⟩
  exact List.length_pos.mpr (fun he => by simp [he] at this)

theorem setStartFirst_starts_question (ns : List Node) (tid : String)
    (h : ∀ n ∈ ns, n.is_start = true → n.type = "question") :
    ∀ n' ∈ setStartFirst ns tid, n'.is_start = true → n'.type = "question" := by
  intro n' hn' hs
  rcases mem_setStartFirst ns tid n' hn' with h' | ⟨n, _, he⟩
  · exact h n' h' hs
  · rw [he]

theorem setHeadStart_countStarts_of_zero (ns : List Node) (hz : countStarts ns = 0)
    (hne : ns ≠ []) : countStarts (setHeadStart ns) = 1 := by
  cases ns with
  | nil => exact absurd rfl hne
  | cons n rest =>
    unfold countStarts at hz ⊢
    simp only [List.filter_cons] at hz
    by_cases hstart : n.is_start
    · rw [if_pos (by simpa using hstart)] at hz
      simp at hz
    · rw [if_neg (by simpa using hstart)] at hz
      unfold setHeadStart
      simp only [List.filter_cons]
      rw [if_pos (by simp)]
      have : (rest.filter (fun n => n.is_start)) = [] := List.length_eq_zero.mp hz
      simp [this]

theorem mem_setHeadStart (ns : List Node) (n' : Node) (h : n' ∈ setHeadStart ns) :
    n' ∈ ns ∨ ∃ n ∈ ns, n' = { n with is_start := true } := by
  cases ns with
  | nil => simp [setHeadStart] at h
  | cons n rest =>
    unfold setHeadStart at h
    rcases List.mem_cons.mp h with h' | h'
    · exact Or.inr ⟨n, List.mem_cons_self n rest, h'⟩
    · exact Or.inl (List.mem_cons_of_mem n h')

theorem setHeadStart_map_tempId (ns : List Node) :
    (setHeadStart ns).map Node.tempId = ns.map Node.tempId := by
  cases ns with
  | nil => rfl
  | cons n rest => simp [setHeadStart]

/-! ## Lemmas about node building -/

theorem nodeTypeOf_ne_connector (sid : Option String) (s : RawShape)
    (h : classifyShape s.masterInfo s.label ≠ "connector") :
    (nodeTypeOf sid s == "connector") = false := by
  unfold nodeTypeOf
  cases h1 : (sid == some s.shapeId) with
  | true => simp
  | false =>
    cases h2 : s.isTerminator with
    | true => simp
    | false => simpa using h

theorem buildNodesGo_map_visioId (sid : Option String) (shapes : List RawShape)
    (hc : ∀ s ∈ shapes, classifyShape s.masterInfo s.label ≠ "connector") :
    ∀ i m, ((buildNodesGo sid shapes i m).1).map Node.visioId =
      shapes.map (fun s => some s.shapeId) := by
  induction shapes with
  | nil => intro i m; rfl
  | cons s0 rest ih =>
    intro i m
    have hc0 := hc s0 (List.mem_cons_self _ _)
    have hcr := fun s hs => hc s (List.mem_cons_of_mem _ hs)
    simp only [buildNodesGo, nodeTypeOf_ne_connector sid s0 hc0, Bool.false_eq_true, if_false,
      List.map_cons]
    rw [ih hcr]
    rfl

theorem buildNodesGo_map_tempId (sid : Option String) (shapes : List RawShape)
    (hc : ∀ s ∈ shapes, classifyShape s.masterInfo s.label ≠ "connector") :
    ∀ i m, ((buildNodesGo sid shapes i m).1).map Node.tempId =
      (List.range' i shapes.length).map mkNodeId := by
  induction shapes with
  | nil => intro i m; rfl
  | cons s0 rest ih =>
    intro i m
    have hc0 := hc s0 (List.mem_cons_self _ _)
    have hcr := fun s hs => hc s (List.mem_cons_of_mem _ hs)
    simp only [buildNodesGo, nodeTypeOf_ne_connector sid s0 hc0, Bool.false_eq_true, if_false,
      List.map_cons, List.length_cons, List.range'_succ]
    rw [ih hcr]
    rfl

theorem buildNodesGo_length (sid : Option String) (shapes : List RawShape)
    (hc : ∀ s ∈ shapes, classifyShape s.masterInfo s.label ≠ "connector") (i : Nat)
    (m : List (String × String)) : (buildNodesGo sid shapes i m).1.length = shapes.length := by
  have h := buildNodesGo_map_visioId sid shapes hc i m
  have := congrArg List.length h
  simpa using this

theorem buildNodesGo_countStarts (sid : Option String) (shapes : List RawShape)
    (hc : ∀ s ∈ shapes, classifyShape s.masterInfo s.label ≠ "connector") :
    ∀ i m, countStarts (buildNodesGo sid shapes i m).1 =
      shapes.countP (fun s => sid == some s.shapeId) := by
  induction shapes with
  | nil => intro i m; rfl
  | cons s0 rest ih =>
    intro i m
    have hc0 := hc s0 (List.mem_cons_self _ _)
    have hcr := fun s hs => hc s (List.mem_cons_of_mem _ hs)
    simp only [buildNodesGo, nodeTypeOf_ne_connector sid s0 hc0, Bool.false_eq_true, if_false]
    unfold countStarts
    simp only [List.countP_cons, List.filter_cons]
    cases hb : (sid == some s0.shapeId) with
    | true =>
      rw [if_pos (show (mkVisioNode sid s0 i).is_start = true by simp [mkVisioNode, hb])]
      have := ih hcr (i + 1) (aset m s0.shapeId (mkNodeId i))
      unfold countStarts at this
      simp [List.length_cons, this, hb]
    | false =>
      rw [if_neg (show ¬(mkVisioNode sid s0 i).is_start = true by simp [mkVisioNode, hb])]
      have := ih hcr (i + 1) (aset m s0.shapeId (mkNodeId i))
      unfold countStarts at this
      simp [this, hb]

theorem buildNodesGo_start_question (sid : Option String) (shapes : List RawShape) :
    ∀ i m n, n ∈ (buildNodesGo sid shapes i m).1 → n.is_start = true → n.type = "question" := by
  induction shapes with
  | nil => intro i m n hn; simp [buildNodesGo] at hn
  | cons s0 rest ih =>
    intro i m n hn hs
    unfold buildNodesGo at hn
    by_cases hskip : (nodeTypeOf sid s0 == "connector") = true
    · rw [if_pos hskip] at hn
      exact ih i m n hn hs
    · rw [if_neg hskip] at hn
      rcases List.mem_cons.mp hn with h' | h'
      · subst h'
        have hb : (sid == some s0.shapeId) = true := by
          simpa [mkVisioNode] using hs
        simp [mkVisioNode, nodeTypeOf, hb]
      · exact ih _ _ n h' hs

theorem buildNodesGo_visio_start (sid : Option String) (shapes : List RawShape) :
    ∀ i m n v, n ∈ (buildNodesGo sid shapes i m).1 → n.visioId = some v → sid = some v →
      n.is_start = true ∧ n.type = "question" := by
  induction shapes with
  | nil => intro i m n v hn; simp [buildNodesGo] at hn
  | cons s0 rest ih =>
    intro i m n v hn hv hsid
    unfold buildNodesGo at hn
    by_cases hskip : (nodeTypeOf sid s0 == "connector") = true
    · rw [if_pos hskip] at hn
      exact ih i m n v hn hv hsid
    · rw [if_neg hskip] at hn
      rcases List.mem_cons.mp hn with h' | h'
      · subst h'
        have hv' : s0.shapeId = v := by simpa [mkVisioNode] using hv
        have hb : (sid == some s0.shapeId) = true := by
          rw [hsid, hv']
          simp
        constructor
        · simp [mkVisioNode, hb]
        · simp [mkVisioNode, nodeTypeOf, hb]
      · exact ih _ _ n v h' hv hsid

theorem buildNodesGo_idMap (sid : Option String) (shapes : List RawShape) :
    ∀ i m k v, alookup (buildNodesGo sid shapes i m).2 k = some v →
      (∃ n ∈ (buildNodesGo sid shapes i m).1, n.tempId = v) ∨ alookup m k = some v := by
  induction shapes with
  | nil => intro i m k v h; exact Or.inr h
  | cons s0 rest ih =>
    intro i m k v h
    unfold buildNodesGo at h ⊢
    by_cases hskip : (nodeTypeOf sid s0 == "connector") = true
    · rw [if_pos hskip] at h ⊢
      exact ih i m k v h
    · rw [if_neg hskip] at h ⊢
      rcases ih (i + 1) (aset m s0.shapeId (mkNodeId i)) k v h with ⟨n, hn, he⟩ | hlook
      · exact Or.inl ⟨n, List.mem_cons_of_mem _ hn, he⟩
      · rcases alookup_aset_cases m s0.shapeId (mkNodeId i) k v hlook with he | hm
        · exact Or.inl ⟨mkVisioNode sid s0 i, List.mem_cons_self _ _, he.symm⟩
        · exact Or.inr hm

/-! ## Lemmas about shape collection -/

theorem mem_collectGo_not_connector (mm : List (String × MasterInfo))
    (cm : List (String × Wire)) (shapes : List ShapeIn) :
    ∀ ec s, s ∈ (collectGo mm cm shapes ec).1 →
      classifyShape s.masterInfo s.label ≠ "connector" := by
  induction shapes with
  | nil => intro ec s hs; simp [collectGo] at hs
  | cons shape rest ih =>
    intro ec s hs
    unfold collectGo at hs
    cases hconn : shapeIsConnector mm cm shape with
    | true =>
      simp only [hconn, if_true] at hs
      rcases hw : alookup cm shape.id with _ | w
      · simp only [hw] at hs
        exact ih ec s hs
      · simp only [hw] at hs
        cases hres : (jsTruthyOpt w.fromId && jsTruthyOpt w.toId) with
        | true =>
          simp only [hres, if_true] at hs
          exact ih (ec + 1) s hs
        | false =>
          simp only [hres, Bool.false_eq_true, if_false] at hs
          exact ih ec s hs
    | false =>
      simp only [hconn, Bool.false_eq_true, if_false] at hs
      cases hlbl : (shapeLabelOf shape == "") with
      | true =>
        simp only [hlbl, if_true] at hs
        exact ih ec s hs
      | false =>
        simp only [hlbl, Bool.false_eq_true, if_false] at hs
        rcases List.mem_cons.mp hs with h' | h'
        · subst h'
          unfold classifyShape mkRawShape
          rcases hmi : shapeMasterInfo mm shape with _ | mi
          · simp only [hmi]
            cases hres : (jsIncludes (jsToLower (shapeLabelOf shape)) "escalat" ||
                jsIncludes (jsToLower (shapeLabelOf shape)) "resolv" ||
                jsStartsWith (jsToLower (shapeLabelOf shape)) "result") with
            | true => rw [if_pos rfl]; decide
            | false => rw [if_neg (by decide)]; decide
          · simp only [hmi]
            have hnc : CONNECTOR_MASTERS.contains (masterKeyOf mi) = false := by
              unfold shapeIsConnector at hconn
              simp only [hmi] at hconn
              rcases Bool.eq_false_or_eq_true (CONNECTOR_MASTERS.contains (masterKeyOf mi))
                with h | h
              · rw [h] at hconn
                simp at hconn
              · exact h
            cases hr : RESULT_MASTERS.contains (masterKeyOf mi) with
            | true => rw [if_pos rfl]; decide
            | false =>
              rw [if_neg (by decide), hnc, if_neg (by decide)]
              decide
        · exact ih ec s h'

theorem collectGo_edges_length (mm : List (String × MasterInfo))
    (cm : List (String × Wire)) (shapes : List ShapeIn) :
    ∀ ec, (collectGo mm cm shapes ec).2.length =
      (shapes.filter (fun sh => shapeIsConnector mm cm sh && shapeWireResolved cm sh)).length := by
  induction shapes with
  | nil => intro ec; rfl
  | cons shape rest ih =>
    intro ec
    unfold collectGo
    simp only [List.filter_cons]
    cases hconn : shapeIsConnector mm cm shape with
    | true =>
      simp only [if_true]
      rcases hw : alookup cm shape.id with _ | w
      · have hres : shapeWireResolved cm shape = false := by
          unfold shapeWireResolved; rw [hw]
        simp only [hw, hres, Bool.and_false, Bool.false_eq_true, if_false]
        exact ih ec
      · cases hres : (jsTruthyOpt w.fromId && jsTruthyOpt w.toId) with
        | true =>
          have hres' : shapeWireResolved cm shape = true := by
            unfold shapeWireResolved; rw [hw]; exact hres
          simp only [hw, hres, hres', Bool.and_true, if_true, List.length_cons]
          rw [ih (ec + 1)]
        | false =>
          have hres' : shapeWireResolved cm shape = false := by
            unfold shapeWireResolved; rw [hw]; exact hres
          simp only [hw, hres, hres', Bool.and_false, Bool.false_eq_true, if_false]
          exact ih ec
    | false =>
      simp only [hconn, Bool.false_and, Bool.false_eq_true, if_false]
      cases hlbl : (shapeLabelOf shape == "") with
      | true =>
        simp only [hlbl, if_true]
        exact ih ec
      | false =>
        simp only [hlbl, Bool.false_eq_true, if_false]
        exact ih ec

theorem rawShapes_not_connector (page : PageXml) (masters : Option (List MasterIn)) :
    ∀ s ∈ rawShapesOf page masters, classifyShape s.masterInfo s.label ≠ "connector" :=
  fun s hs => mem_collectGo_not_connector _ _ page.shapes 0 s hs

/-! ## Lemmas about the ordered shape list and start selection -/

theorem mem_orderedShapes (page : PageXml) (masters : Option (List MasterIn)) (s : RawShape) :
    s ∈ orderedShapesOf page masters ↔ s ∈ rawShapesOf page masters := by
  unfold orderedShapesOf
  by_cases h : (noIncomingShapes page masters).isEmpty
  · rw [if_pos h]
    exact (List.perm_insertionSort shapeBefore _).mem_iff
  · rw [if_neg h]

theorem orderedShapes_not_connector (page : PageXml) (masters : Option (List MasterIn)) :
    ∀ s ∈ orderedShapesOf page masters, classifyShape s.masterInfo s.label ≠ "connector" :=
  fun s hs => rawShapes_not_connector page masters s ((mem_orderedShapes page masters s).mp hs)

theorem orderedShapes_length (page : PageXml) (masters : Option (List MasterIn)) :
    (orderedShapesOf page masters).length = (rawShapesOf page masters).length := by
  unfold orderedShapesOf
  by_cases h : (noIncomingShapes page masters).isEmpty
  · rw [if_pos h]
    exact (List.perm_insertionSort shapeBefore _).length_eq
  · rw [if_neg h]

theorem startShapeOf_mem (page : PageXml) (masters : Option (List MasterIn)) (s : RawShape)
    (h : startShapeOf page masters = some s) : s ∈ rawShapesOf page masters := by
  unfold startShapeOf chooseStart at h
  rcases hf : (noIncomingShapes page masters).find? (fun s => s.isTerminator) with _ | s0
  · rw [hf] at h
    rcases hh : (jsSortShapes (noIncomingShapes page masters)).head? with _ | s1
    · rw [hh] at h
      rcases hh2 : (jsSortShapes (rawShapesOf page masters)).head? with _ | s2
      · rw [hh2] at h; cases h
      · rw [hh2] at h
        cases h
        exact (List.perm_insertionSort shapeBefore _).mem_iff.mp (List.mem_of_mem_head? hh2)
    · rw [hh] at h
      cases h
      have hmem : s ∈ noIncomingShapes page masters :=
        (List.perm_insertionSort shapeBefore _).mem_iff.mp (List.mem_of_mem_head? hh)
      exact List.mem_of_mem_filter hmem
  · rw [hf] at h
    cases h
    exact List.mem_of_mem_filter (List.mem_of_find?_eq_some hf)

theorem startShapeIdOf_spec (page : PageXml) (masters : Option (List MasterIn)) (v : String)
    (h : startShapeIdOf page masters = some v) :
    v ≠ "" ∧ ∃ s ∈ rawShapesOf page masters, s.shapeId = v := by
  unfold startShapeIdOf startIdOf at h
  rcases hs : startShapeOf page masters with _ | s
  · rw [hs] at h; cases h
  · rw [hs] at h
    cases he : (s.shapeId == "") with
    | true =>
      simp only [he, if_true] at h
      simp at h
    | false =>
      simp only [he, Bool.false_eq_true, if_false] at h
      cases h
      exact ⟨by simpa using he, s, startShapeOf_mem page masters s hs, rfl⟩

/-! ## Lemmas about the start fallback -/

theorem countStarts_pos_iff_any (ns : List Node) :
    0 < countStarts ns ↔ ns.any (fun n => n.is_start) = true := by
  unfold countStarts
  rw [List.length_pos, List.any_eq_true]
  constructor
  · intro h
    rcases List.exists_mem_of_ne_nil _ h with ⟨n, hn⟩
    rcases List.mem_filter.mp hn with ⟨hmem, hst⟩
    exact ⟨n, hmem, hst⟩
  · rintro ⟨n, hmem, hst⟩
    intro he
    have : n ∈ ns.filter (fun n => n.is_start) := List.mem_filter.mpr ⟨hmem, hst⟩
    rw [he] at this
    simp at this

theorem applyFallback_eq_of_any (ns : List Node)
    (h : ns.any (fun n => n.is_start) = true) : applyFallback ns = ns := by
  unfold applyFallback
  rw [h]
  simp

theorem applyFallback_any_start (ns : List Node) (hne : ns ≠ []) :
    (applyFallback ns).any (fun n => n.is_start) = true := by
  unfold applyFallback
  cases hany : ns.any (fun n => n.is_start) with
  | true => simpa using hany
  | false =>
    have hlen : decide (0 < ns.length) = true := by
      simp [List.length_pos, hne]
    simp only [hany, hlen, Bool.not_false, Bool.and_self, if_true]
    have hsne : jsSortNodes ns ≠ [] := by
      intro he
      have hp := List.perm_insertionSort nodeBefore ns
      rw [show List.insertionSort nodeBefore ns = jsSortNodes ns from rfl, he] at hp
      exact hne hp.symm.eq_nil
    rcases List.exists_mem_of_ne_nil _ hsne with ⟨m0, _⟩
    cases hh : (jsSortNodes ns).head? with
    | none => exact absurd (List.head?_eq_none_iff.mp hh) hsne
    | some m =>
      have hmem : m ∈ ns :=
        (List.perm_insertionSort nodeBefore ns).mem_iff.mp (List.mem_of_mem_head? hh)
      have htid : m.tempId ∈ ns.map Node.tempId := List.mem_map.mpr ⟨m, hmem, rfl⟩
      rcases setStartFirst_sets ns m.tempId htid with ⟨n', hn', _, hs, _⟩
      exact List.any_eq_true.mpr ⟨n', hn', by simpa using hs⟩

theorem applyFallback_countStarts (ns : List Node) (hne : ns ≠ [])
    (hle : countStarts ns ≤ 1) : countStarts (applyFallback ns) = 1 := by
  rcases Nat.lt_or_ge 0 (countStarts ns) with hpos | hzero
  · have h1 : countStarts ns = 1 := le_antisymm hle hpos
    rw [applyFallback_eq_of_any ns ((countStarts_pos_iff_any ns).mp hpos)]
    exact h1
  · have hz : countStarts ns = 0 := Nat.le_zero.mp hzero
    unfold applyFallback
    have hany : ns.any (fun n => n.is_start) = false := by
      cases h : ns.any (fun n => n.is_start) with
      | false => rfl
      | true =>
        have := (countStarts_pos_iff_any ns).mpr h
        omega
    have hlen : decide (0 < ns.length) = true := by
      simp [List.length_pos, hne]
    simp only [hany, hlen, Bool.not_false, Bool.and_self, if_true]
    have hsne : jsSortNodes ns ≠ [] := by
      intro he
      have hp := List.perm_insertionSort nodeBefore ns
      rw [show List.insertionSort nodeBefore ns = jsSortNodes ns from rfl, he] at hp
      exact hne hp.symm.eq_nil
    cases hh : (jsSortNodes ns).head? with
    | none => exact absurd (List.head?_eq_none_iff.mp hh) hsne
    | some m =>
      have hmem : m ∈ ns :=
        (List.perm_insertionSort nodeBefore ns).mem_iff.mp (List.mem_of_mem_head? hh)
      exact countStarts_setStartFirst_of_zero ns m.tempId hz (List.mem_map.mpr ⟨m, hmem, rfl⟩)

theorem applyFallback_start_question (ns : List Node)
    (h : ∀ n ∈ ns, n.is_start = true → n.type = "question") :
    ∀ n' ∈ applyFallback ns, n'.is_start = true → n'.type = "question" := by
  unfold applyFallback
  by_cases hc : (!(ns.any (fun n => n.is_start)) && decide (0 < ns.length)) = true
  · rw [if_pos hc]
    cases hh : (jsSortNodes ns).head? with
    | none => exact h
    | some m => exact setStartFirst_starts_question ns m.tempId h
  · rw [if_neg hc]
    exact h

theorem applyFallback_map_tempId (ns : List Node) :
    (applyFallback ns).map Node.tempId = ns.map Node.tempId := by
  unfold applyFallback
  by_cases hc : (!(ns.any (fun n => n.is_start)) && decide (0 < ns.length)) = true
  · rw [if_pos hc]
    cases hh : (jsSortNodes ns).head? with
    | none => rfl
    | some m => exact setStartFirst_map_tempId ns m.tempId
  · rw [if_neg hc]

theorem applyFallback_map_visioId (ns : List Node) :
    (applyFallback ns).map Node.visioId = ns.map Node.visioId := by
  unfold applyFallback
  by_cases hc : (!(ns.any (fun n => n.is_start)) && decide (0 < ns.length)) = true
  · rw [if_pos hc]
    cases hh : (jsSortNodes ns).head? with
    | none => rfl
    | some m => exact setStartFirst_map_visioId ns m.tempId
  · rw [if_neg hc]

/-! ## Counting starts in the Visio pipeline -/

theorem countP_shapeId_le_one (v : String) (l : List RawShape)
    (h : (l.map RawShape.shapeId).Nodup) :
    l.countP (fun s => some v == some s.shapeId) ≤ 1 := by
  induction l with
  | nil => simp
  | cons a rest ih =>
    simp only [List.map_cons, List.nodup_cons] at h
    rw [List.countP_cons]
    cases hp : (some v == some a.shapeId : Bool) with
    | false => simpa using ih h.2
    | true =>
      have hv : v = a.shapeId := by simpa using hp
      have hz : rest.countP (fun s => some v == some s.shapeId) = 0 := by
        rw [List.countP_eq_zero]
        intro s hs hps
        have : a.shapeId = s.shapeId := by
          have := (by simpa using hps : v = s.shapeId)
          rw [← hv, this]
        exact h.1 (List.mem_map.mpr ⟨s, hs, this.symm⟩)
      rw [hz]
      simp

theorem orderedShapes_perm (page : PageXml) (masters : Option (List MasterIn)) :
    (orderedShapesOf page masters).Perm (rawShapesOf page masters) := by
  unfold orderedShapesOf
  by_cases h : (noIncomingShapes page masters).isEmpty
  · rw [if_pos h]
    exact List.perm_insertionSort shapeBefore _
  · rw [if_neg h]

theorem preNodes_countStarts (page : PageXml) (masters : Option (List MasterIn)) :
    countStarts (preNodesOf page masters) =
      (orderedShapesOf page masters).countP
        (fun s => startShapeIdOf page masters == some s.shapeId) :=
  buildNodesGo_countStarts _ _ (orderedShapes_not_connector page masters) 0 []

theorem preNodes_countStarts_le_one (page : PageXml) (masters : Option (List MasterIn))
    (h : ((rawShapesOf page masters).map RawShape.shapeId).Nodup) :
    countStarts (preNodesOf page masters) ≤ 1 := by
  rw [preNodes_countStarts]
  rcases hsid : startShapeIdOf page masters with _ | v
  · have : (orderedShapesOf page masters).countP (fun s => (none : Option String) == some s.shapeId) = 0 := by
      rw [List.countP_eq_zero]
      intro s _ hp
      simp at hp
    simp [this]
  · have hnodup : ((orderedShapesOf page masters).map RawShape.shapeId).Nodup :=
      ((orderedShapes_perm page masters).map RawShape.shapeId).nodup_iff.mpr h
    exact countP_shapeId_le_one v _ hnodup

theorem preNodes_countStarts_pos (page : PageXml) (masters : Option (List MasterIn)) (v : String)
    (hsid : startShapeIdOf page masters = some v) :
    0 < countStarts (preNodesOf page masters) := by
  rw [preNodes_countStarts, hsid]
  rcases startShapeIdOf_spec page masters v hsid with ⟨_, s, hs, hv⟩
  rw [List.countP_pos_iff]
  exact ⟨s, (mem_orderedShapes page masters s).mpr hs, by rw [hv]; simp⟩

theorem applyFallback_length (ns : List Node) : (applyFallback ns).length = ns.length := by
  have := congrArg List.length (applyFallback_map_tempId ns)
  simpa using this

theorem parseVisio_nodes_length (page : PageXml) (masters : Option (List MasterIn)) :
    (parseVisioXml page masters).nodes.length = (rawShapesOf page masters).length := by
  show (applyFallback (preNodesOf page masters)).length = _
  rw [applyFallback_length]
  unfold preNodesOf builtOf
  rw [buildNodesGo_length _ _ (orderedShapes_not_connector page masters) 0 []]
  exact orderedShapes_length page masters

theorem visio_countStarts_pos (page : PageXml) (masters : Option (List MasterIn))
    (hne : (parseVisioXml page masters).nodes ≠ []) :
    0 < countStarts (parseVisioXml page masters).nodes := by
  have hpre : preNodesOf page masters ≠ [] := by
    intro he
    apply hne
    show applyFallback (preNodesOf page masters) = []
    rw [he]
    rfl
  exact (countStarts_pos_iff_any _).mpr (applyFallback_any_start _ hpre)

theorem visio_countStarts_eq_one (page : PageXml) (masters : Option (List MasterIn))
    (hnodup : ((rawShapesOf page masters).map RawShape.shapeId).Nodup)
    (hne : (parseVisioXml page masters).nodes ≠ []) :
    countStarts (parseVisioXml page masters).nodes = 1 := by
  have hpre : preNodesOf page masters ≠ [] := by
    intro he
    apply hne
    show applyFallback (preNodesOf page masters) = []
    rw [he]
    rfl
  exact applyFallback_countStarts _ hpre (preNodes_countStarts_le_one page masters hnodup)

/-! ## Start nodes are questions (Visio path) -/

theorem visio_start_question (page : PageXml) (masters : Option (List MasterIn)) :
    ∀ n ∈ (parseVisioXml page masters).nodes, n.is_start = true → n.type = "question" := by
  have hbase : ∀ n ∈ preNodesOf page masters, n.is_start = true → n.type = "question" :=
    fun n hn => buildNodesGo_start_question _ _ 0 [] n hn
  exact applyFallback_start_question _ hbase

theorem visio_chosen_question (page : PageXml) (masters : Option (List MasterIn)) (v : String)
    (hsid : startShapeIdOf page masters = some v) :
    ∀ n ∈ (parseVisioXml page masters).nodes, n.visioId = some v →
      n.is_start = true ∧ n.type = "question" := by
  have hpos := preNodes_countStarts_pos page masters v hsid
  have hany := (countStarts_pos_iff_any _).mp hpos
  have heq : (parseVisioXml page masters).nodes = preNodesOf page masters := by
    show applyFallback (preNodesOf page masters) = _
    exact applyFallback_eq_of_any _ hany
  rw [heq]
  intro n hn hv
  exact buildNodesGo_visio_start _ _ 0 [] n v hn hv hsid

/-! ## Edge endpoints resolve to emitted nodes (Visio path) -/

theorem jsOrNull_eq_some (o : Option String) (v : String) (h : jsOrNull o = some v) :
    o = some v := by
  rcases o with _ | s
  · simp [jsOrNull] at h
  · simp only [jsOrNull] at h
    cases he : (s == "") with
    | true =>
      simp only [he, if_true] at h
      cases h
    | false =>
      simp only [he, Bool.false_eq_true, if_false] at h
      exact h

theorem visio_edge_endpoints (page : PageXml) (masters : Option (List MasterIn)) :
    ∀ e ∈ (parseVisioXml page masters).edges,
      (∃ n ∈ (parseVisioXml page masters).nodes, e.sourceId = some n.tempId) ∧
      (∃ n ∈ (parseVisioXml page masters).nodes, e.targetId = some n.tempId) := by
  intro e he
  have hmm : e ∈ validEdgesOf page masters := he
  unfold validEdgesOf resolveEdges at hmm
  rcases List.mem_filter.mp hmm with ⟨hmap, hcond⟩
  rcases List.mem_map.mp hmap with ⟨re, _, hre⟩
  have hcond2 : jsTruthyOpt e.sourceId = true ∧ jsTruthyOpt e.targetId = true := by
    simpa using hcond
  rcases hcond2 with ⟨hsrc, htgt⟩
  have tempId_mem : ∀ v, v ∈ (preNodesOf page masters).map Node.tempId →
      ∃ n ∈ (parseVisioXml page masters).nodes, n.tempId = v := by
    intro v hv
    have : v ∈ (parseVisioXml page masters).nodes.map Node.tempId := by
      show v ∈ (applyFallback (preNodesOf page masters)).map Node.tempId
      rw [applyFallback_map_tempId]
      exact hv
    rcases List.mem_map.mp this with ⟨n, hn, he'⟩
    exact ⟨n, hn, he'⟩
  constructor
  · rcases hlook : alookup (idMapOf page masters) re.visioSrcId with _ | v
    · rw [← hre] at hsrc
      simp only [hlook] at hsrc
      simp [jsOrNull, jsTruthyOpt] at hsrc
    · rw [← hre] at hsrc
      simp only [hlook] at hsrc
      by_cases hv : (v == "") = true
      · rw [show jsOrNull (some v) = none by simp only [jsOrNull]; rw [if_pos hv]] at hsrc
        simp [jsTruthyOpt] at hsrc
      · have hjs : jsOrNull (some v) = some v := by
          simp only [jsOrNull]
          rw [if_neg hv]
        have hsome : e.sourceId = some v := by
          rw [← hre]
          show jsOrNull (alookup (idMapOf page masters) re.visioSrcId) = some v
          rw [hlook, hjs]
        rcases buildNodesGo_idMap _ _ 0 [] re.visioSrcId v hlook with ⟨n, hn, htid⟩ | habs
        · rcases tempId_mem v (List.mem_map.mpr ⟨n, hn, htid⟩) with ⟨n', hn', ht'⟩
          exact ⟨n', hn', by rw [hsome, ht']⟩
        · simp [alookup] at habs
  · rcases hlook : alookup (idMapOf page masters) re.visioTgtId with _ | v
    · rw [← hre] at htgt
      simp only [hlook] at htgt
      simp [jsOrNull, jsTruthyOpt] at htgt
    · rw [← hre] at htgt
      simp only [hlook] at htgt
      by_cases hv : (v == "") = true
      · rw [show jsOrNull (some v) = none by simp only [jsOrNull]; rw [if_pos hv]] at htgt
        simp [jsTruthyOpt] at htgt
      · have hjs : jsOrNull (some v) = some v := by
          simp only [jsOrNull]
          rw [if_neg hv]
        have hsome : e.targetId = some v := by
          rw [← hre]
          show jsOrNull (alookup (idMapOf page masters) re.visioTgtId) = some v
          rw [hlook, hjs]
        rcases buildNodesGo_idMap _ _ 0 [] re.visioTgtId v hlook with ⟨n, hn, htid⟩ | habs
        · rcases tempId_mem v (List.mem_map.mpr ⟨n, hn, htid⟩) with ⟨n', hn', ht'⟩
          exact ⟨n', hn', by rw [hsome, ht']⟩
        · simp [alookup] at habs

/-! ## Lemmas about the external-generator adapter -/

theorem idMapStep_values (m : List (String × String)) (p : Nat × GenNode)
    (P : String → Prop) (hacc : ∀ k v, alookup m k = some v → P v) (hp : P (mkNodeId p.1)) :
    ∀ k v, alookup (idMapStep m p) k = some v → P v := by
  intro k v h
  unfold idMapStep at h
  rcases hid : p.2.id with _ | ids
  · simp only [hid] at h
    rcases hl : alookup m (toString p.1) with _ | w
    · simp only [hl] at h
      rcases alookup_aset_cases m (toString p.1) (mkNodeId p.1) k v h with he | hm
      · rw [he]; exact hp
      · exact hacc k v hm
    · simp only [hl] at h
      exact hacc k v h
  · simp only [hid] at h
    rcases hl : alookup (aset m ids (mkNodeId p.1)) (toString p.1) with _ | w
    · simp only [hl] at h
      rcases alookup_aset_cases _ (toString p.1) (mkNodeId p.1) k v h with he | hm
      · rw [he]; exact hp
      · rcases alookup_aset_cases m ids (mkNodeId p.1) k v hm with he | hm'
        · rw [he]; exact hp
        · exact hacc k v hm'
    · simp only [hl] at h
      rcases alookup_aset_cases m ids (mkNodeId p.1) k v h with he | hm'
      · rw [he]; exact hp
      · exact hacc k v hm'

theorem foldl_idMapStep_values (L : List (Nat × GenNode)) :
    ∀ (acc : List (String × String)) (P : String → Prop),
      (∀ k v, alookup acc k = some v → P v) → (∀ p ∈ L, P (mkNodeId p.1)) →
      ∀ k v, alookup (L.foldl idMapStep acc) k = some v → P v := by
  induction L with
  | nil => intro acc P hacc _ k v h; exact hacc k v h
  | cons p rest ih =>
    intro acc P hacc hL k v h
    rw [List.foldl_cons] at h
    exact ih (idMapStep acc p) P
      (idMapStep_values acc p P hacc (hL p (List.mem_cons_self _ _)))
      (fun q hq => hL q (List.mem_cons_of_mem _ hq)) k v h

theorem buildIdMap_values (ns : List GenNode) (k v : String)
    (h : alookup (buildIdMap ns) k = some v) : ∃ p ∈ ns.enum, v = mkNodeId p.1 := by
  refine foldl_idMapStep_values ns.enum [] (fun w => ∃ p ∈ ns.enum, w = mkNodeId p.1)
    (fun k' v' h' => by simp [alookup] at h') (fun p hp => ⟨p, hp, rfl⟩) k v h

theorem normalizeGenNodes_map_tempId (ns : List GenNode) :
    (normalizeGenNodes ns).map Node.tempId = ns.enum.map (fun p => mkNodeId p.1) := by
  unfold normalizeGenNodes
  rw [List.map_map]
  rfl

theorem genNodesOf_map_tempId (data : GenData) :
    (genNodesOf data).map Node.tempId = data.nodes.enum.map (fun p => mkNodeId p.1) := by
  unfold genNodesOf
  by_cases hc : (decide (0 < (normalizeGenNodes data.nodes).length) &&
      !((normalizeGenNodes data.nodes).any (fun n => n.is_start))) = true
  · rw [if_pos hc, setHeadStart_map_tempId]
    exact normalizeGenNodes_map_tempId data.nodes
  · rw [if_neg hc]
    exact normalizeGenNodes_map_tempId data.nodes

theorem gen_edge_endpoints (data : GenData) :
    ∀ e ∈ genEdgesOf data,
      (∃ n ∈ genNodesOf data, e.sourceId = some n.tempId) ∧
      (∃ n ∈ genNodesOf data, e.targetId = some n.tempId) := by
  intro e he
  unfold genEdgesOf at he
  rcases List.mem_filter.mp he with ⟨hmap, hcond⟩
  rcases List.mem_map.mp hmap with ⟨p, _, hpe⟩
  have hcond2 : jsTruthyOpt e.sourceId = true ∧ jsTruthyOpt e.targetId = true := by
    simpa using hcond
  have tid_mem : ∀ i, (∃ q ∈ data.nodes.enum, mkNodeId q.1 = mkNodeId i) →
      ∃ n ∈ genNodesOf data, n.tempId = mkNodeId i := by
    intro i ⟨q, hq, hqe⟩
    have : mkNodeId q.1 ∈ (genNodesOf data).map Node.tempId := by
      rw [genNodesOf_map_tempId]
      exact List.mem_map.mpr ⟨q, hq, rfl⟩
    rcases List.mem_map.mp this with ⟨n, hn, hne⟩
    exact ⟨n, hn, by rw [hne, hqe]⟩
  constructor
  · rcases hlook : alookup (buildIdMap data.nodes) p.2.source with _ | v
    · rw [← hpe] at hcond2
      simp only [hlook] at hcond2
      simp [jsTruthyOpt] at hcond2
    · have hsome : e.sourceId = some v := by
        rw [← hpe]
        show alookup (buildIdMap data.nodes) p.2.source = some v
        exact hlook
      rcases buildIdMap_values data.nodes p.2.source v hlook with ⟨q, hq, hv⟩
      rcases tid_mem q.1 ⟨q, hq, rfl⟩ with ⟨n, hn, hne⟩
      exact ⟨n, hn, by rw [hsome, hne, hv]⟩
  · rcases hlook : alookup (buildIdMap data.nodes) p.2.target with _ | v
    · rw [← hpe] at hcond2
      simp only [hlook] at hcond2
      simp [jsTruthyOpt] at hcond2
    · have hsome : e.targetId = some v := by
        rw [← hpe]
        show alookup (buildIdMap data.nodes) p.2.target = some v
        exact hlook
      rcases buildIdMap_values data.nodes p.2.target v hlook with ⟨q, hq, hv⟩
      rcases tid_mem q.1 ⟨q, hq, rfl⟩ with ⟨n, hn, hne⟩
      exact ⟨n, hn, by rw [hsome, hne, hv]⟩

theorem normalizeGenNodes_countStarts (ns : List GenNode) :
    countStarts (normalizeGenNodes ns) = ns.countP (fun n => n.is_start) := by
  unfold countStarts normalizeGenNodes
  rw [← List.countP_eq_length_filter, List.countP_map]
  have h1 : ns.enum.countP ((fun n => n.is_start) ∘ mkGenNode) =
      ns.enum.countP (fun p => p.2.is_start) := by
    apply List.countP_congr
    intro p _
    rfl
  rw [h1]
  have h2 : ns.enum.countP (fun p => p.2.is_start) =
      (ns.enum.map Prod.snd).countP (fun n => n.is_start) := by
    rw [List.countP_map]
    rfl
  rw [h2, List.enum_map_snd]

theorem genNodesOf_countStarts_pos (data : GenData) (hne : genNodesOf data ≠ []) :
    0 < countStarts (genNodesOf data) := by
  unfold genNodesOf at hne ⊢
  cases hany : (normalizeGenNodes data.nodes).any (fun n => n.is_start) with
  | true =>
    simp only [hany, Bool.not_true, Bool.and_false, Bool.false_eq_true, if_false] at hne ⊢
    exact (countStarts_pos_iff_any _).mpr hany
  | false =>
    simp only [hany, Bool.not_false, Bool.and_true] at hne ⊢
    have hlen : normalizeGenNodes data.nodes ≠ [] := by
      intro h0
      apply hne
      rw [h0]
      simp [setHeadStart]
    have hdec : decide (0 < (normalizeGenNodes data.nodes).length) = true := by
      simp [List.length_pos, hlen]
    simp only [hdec, if_true] at hne ⊢
    have hz : countStarts (normalizeGenNodes data.nodes) = 0 := by
      cases hcc : countStarts (normalizeGenNodes data.nodes) with
      | zero => rfl
      | succ n =>
        have hpos : 0 < countStarts (normalizeGenNodes data.nodes) := by omega
        have := (countStarts_pos_iff_any (normalizeGenNodes data.nodes)).mp hpos
        rw [hany] at this
        cases this
    rw [setHeadStart_countStarts_of_zero _ hz hlen]
    omega

theorem genNodesOf_countStarts_eq_one (data : GenData) (hne : genNodesOf data ≠ [])
    (hle : data.nodes.countP (fun n => n.is_start) ≤ 1) :
    countStarts (genNodesOf data) = 1 := by
  unfold genNodesOf at hne ⊢
  cases hany : (normalizeGenNodes data.nodes).any (fun n => n.is_start) with
  | true =>
    simp only [hany, Bool.not_true, Bool.and_false, Bool.false_eq_true, if_false] at hne ⊢
    have hpos := (countStarts_pos_iff_any _).mpr hany
    have hle' : countStarts (normalizeGenNodes data.nodes) ≤ 1 := by
      rw [normalizeGenNodes_countStarts]
      exact hle
    omega
  | false =>
    simp only [hany, Bool.not_false, Bool.and_true] at hne ⊢
    have hlen : normalizeGenNodes data.nodes ≠ [] := by
      intro h0
      apply hne
      rw [h0]
      simp [setHeadStart]
    have hdec : decide (0 < (normalizeGenNodes data.nodes).length) = true := by
      simp [List.length_pos, hlen]
    simp only [hdec, if_true] at hne ⊢
    have hz : countStarts (normalizeGenNodes data.nodes) = 0 := by
      cases hcc : countStarts (normalizeGenNodes data.nodes) with
      | zero => rfl
      | succ n =>
        have hpos : 0 < countStarts (normalizeGenNodes data.nodes) := by omega
        have := (countStarts_pos_iff_any (normalizeGenNodes data.nodes)).mp hpos
        rw [hany] at this
        cases this
    exact setHeadStart_countStarts_of_zero _ hz hlen

theorem handleGenerate_eq_some (data : GenData) (g : GenResult)
    (h : handleGenerate data = some g) :
    g.nodes = genNodesOf data ∧ g.edges = genEdgesOf data ∧
      g.warnings = genWarningsOf data ∧ genNodesOf data ≠ [] := by
  unfold handleGenerate at h
  by_cases hc : ((genNodesOf data).length == 0) = true
  · rw [if_pos hc] at h
    cases h
  · rw [if_neg hc] at h
    cases h
    refine ⟨rfl, rfl, rfl, ?_⟩
    intro h0
    apply hc
    rw [h0]
    rfl

/-! ## Characterization of the wiring table -/

theorem lastToSheet_append (part : String) (init : List ConnectRec) (c : ConnectRec) :
    lastToSheet part (init ++ [c]) =
      if c.fromPart == part then some c.toSheet else lastToSheet part init := by
  unfold lastToSheet
  rw [List.reverse_append]
  simp only [List.reverse_singleton, List.singleton_append, List.find?_cons]
  cases hp : (c.fromPart == part) with
  | true => simp
  | false => simp

theorem wire_foldl_spec (l : List ConnectRec) :
    l.foldl wireFold none =
      if l = [] then none else some ⟨lastToSheet "9" l, lastToSheet "12" l⟩ := by
  induction l using List.reverseRecOn with
  | nil => rfl
  | append_singleton init c ih =>
    rw [List.foldl_append, List.foldl_cons, List.foldl_nil, ih]
    have hne2 : init ++ [c] ≠ [] := by
      intro h0
      have := congrArg List.length h0
      simp at this
    rw [if_neg hne2, lastToSheet_append, lastToSheet_append]
    unfold wireFold
    have hgd : (if init = [] then none else
        some (⟨lastToSheet "9" init, lastToSheet "12" init⟩ : Wire)).getD ⟨none, none⟩ =
        ⟨lastToSheet "9" init, lastToSheet "12" init⟩ := by
      by_cases hi : init = []
      · rw [if_pos hi, hi]
        rfl
      · rw [if_neg hi]
        rfl
    rw [hgd]
    unfold wireStep
    cases h9 : (c.fromPart == "9") with
    | true =>
      have h12 : (c.fromPart == "12") = false := by
        have h' : c.fromPart = "9" := by simpa using h9
        rw [h']
        decide
      simp [h9, h12]
    | false =>
      cases h12 : (c.fromPart == "12") with
      | true => simp [h9, h12]
      | false => simp [h9, h12]

theorem buildConnectorMapGo_lookup (cs : List ConnectRec) :
    ∀ (acc : List (String × Wire)) (k : String),
      alookup (buildConnectorMapGo acc cs) k =
        (cs.filter (fun c => c.fromSheet == k)).foldl wireFold (alookup acc k) := by
  induction cs with
  | nil => intro acc k; rfl
  | cons c rest ih =>
    intro acc k
    unfold buildConnectorMapGo
    rw [ih]
    simp only [List.filter_cons]
    cases hf : (c.fromSheet == k) with
    | true =>
      have hk : c.fromSheet = k := by simpa using hf
      rw [if_pos rfl, List.foldl_cons]
      congr 1
      subst hk
      rw [alookup_aupsert_self]
      rfl
    | false =>
      rw [if_neg (by decide)]
      congr 1
      have hne : ¬c.fromSheet = k := by simpa using hf
      exact alookup_aupsert_ne acc c.fromSheet _ k (fun he => hne he.symm)

theorem buildConnectorMapGo_keys_nodup (cs : List ConnectRec) :
    ∀ acc : List (String × Wire), ((acc.map Prod.fst).Nodup) →
      ((buildConnectorMapGo acc cs).map Prod.fst).Nodup := by
  induction cs with
  | nil => intro acc h; exact h
  | cons c rest ih =>
    intro acc h
    exact ih _ (keys_nodup_aupsert acc c.fromSheet _ h)

theorem buildConnectorMap_lookup (cs : List ConnectRec) (k : String) :
    alookup (buildConnectorMap cs) k =
      (if cs.filter (fun c => c.fromSheet == k) = [] then none
       else some ⟨lastToSheet "9" (cs.filter (fun c => c.fromSheet == k)),
                  lastToSheet "12" (cs.filter (fun c => c.fromSheet == k))⟩) := by
  unfold buildConnectorMap
  rw [buildConnectorMapGo_lookup cs [] k]
  rw [show alookup ([] : List (String × Wire)) k = none from rfl]
  exact wire_foldl_spec _

theorem buildConnectorMap_keys_nodup (cs : List ConnectRec) :
    ((buildConnectorMap cs).map Prod.fst).Nodup :=
  buildConnectorMapGo_keys_nodup cs [] (by simp)

/-! ## Lemmas about the upload-handler warnings -/

theorem detectedMsg_head (q r : Nat) : (detectedMsg q r).data.head? = some 'ℹ' := rfl

theorem noStartMsg_ne_detectedMsg (q r : Nat) : noStartMsg ≠ detectedMsg q r := by
  intro h
  have h1 : noStartMsg.data.head? = (detectedMsg q r).data.head? :=
    congrArg (fun s => s.data.head?) h
  rw [detectedMsg_head] at h1
  exact absurd h1 (by decide)

theorem noConnectorsMsg_ne_detectedMsg (q r : Nat) : noConnectorsMsg ≠ detectedMsg q r := by
  intro h
  have h1 : noConnectorsMsg.data.head? = (detectedMsg q r).data.head? :=
    congrArg (fun s => s.data.head?) h
  rw [detectedMsg_head] at h1
  exact absurd h1 (by decide)

theorem handleVisioFile_ok_parts (page : PageXml) (masters : Option (List MasterIn))
    (g : VisioResult) (ws : List String)
    (h : handleVisioFile page masters = Except.ok (g, ws)) :
    g = parseVisioXml page masters ∧ ws = visioWarnings masters g ∧ g.nodes ≠ [] := by
  unfold handleVisioFile at h
  by_cases hc : ((parseVisioXml page masters).nodes.length == 0) = true
  · rw [if_pos hc] at h
    cases h
  · rw [if_neg hc] at h
    rcases h with ⟨⟩
    refine ⟨rfl, rfl, ?_⟩
    intro h0
    apply hc
    rw [h0]
    rfl

theorem handleVisioFile_ok_of_nodes (page : PageXml) (masters : Option (List MasterIn))
    (h : (parseVisioXml page masters).nodes ≠ []) :
    handleVisioFile page masters =
      Except.ok (parseVisioXml page masters,
        visioWarnings masters (parseVisioXml page masters)) := by
  unfold handleVisioFile
  rw [if_neg (by simpa [List.length_eq_zero] using h)]

theorem noStartMsg_not_mem_visioWarnings (masters : Option (List MasterIn)) (r : VisioResult)
    (hany : r.nodes.any (fun n => n.is_start) = true) :
    noStartMsg ∉ visioWarnings masters r := by
  unfold visioWarnings
  rw [hany]
  intro hmem
  simp only [List.mem_append] at hmem
  rcases hmem with ((h1 | h2) | h3) | h4
  · by_cases hm : masters.isSome = true
    · rw [if_pos hm] at h1
      simp at h1
    · rw [if_neg hm] at h1
      have : noStartMsg = noMastersMsg := by simpa using h1
      exact absurd this (by decide)
  · by_cases he : (r.edges.length == 0) = true
    · rw [if_pos he] at h2
      have : noStartMsg = noConnectorsMsg := by simpa using h2
      exact absurd this (by decide)
    · rw [if_neg he] at h2
      simp at h2
  · simp at h3
  · by_cases hm : masters.isSome = true
    · rw [if_pos hm] at h4
      have := by simpa using h4
      exact absurd this (noStartMsg_ne_detectedMsg _ _)
    · rw [if_neg hm] at h4
      simp at h4

theorem noConnectorsMsg_mem_visioWarnings_iff (masters : Option (List MasterIn))
    (r : VisioResult) : noConnectorsMsg ∈ visioWarnings masters r ↔ r.edges = [] := by
  unfold visioWarnings
  constructor
  · intro hmem
    simp only [List.mem_append] at hmem
    rcases hmem with ((h1 | h2) | h3) | h4
    · by_cases hm : masters.isSome = true
      · rw [if_pos hm] at h1
        simp at h1
      · rw [if_neg hm] at h1
        have : noConnectorsMsg = noMastersMsg := by simpa using h1
        exact absurd this (by decide)
    · by_cases he : (r.edges.length == 0) = true
      · exact List.length_eq_zero.mp (by simpa using he)
      · rw [if_neg he] at h2
        simp at h2
    · by_cases hs : (!(r.nodes.any (fun n => n.is_start))) = true
      · rw [if_pos hs] at h3
        have : noConnectorsMsg = noStartMsg := by simpa using h3
        exact absurd this (by decide)
      · rw [if_neg hs] at h3
        simp at h3
    · by_cases hm : masters.isSome = true
      · rw [if_pos hm] at h4
        have := by simpa using h4
        exact absurd this (noConnectorsMsg_ne_detectedMsg _ _)
      · rw [if_neg hm] at h4
        simp at h4
  · intro hr
    have he : (r.edges.length == 0) = true := by
      rw [hr]
      rfl
    rw [he]
    simp

/-! ## Positions produced by the adapter -/

theorem mkGenNode_position (p : Nat × GenNode) :
    (mkGenNode p).position =
      ⟨qmax (intQ 20) (p.2.x.getD (dfltX p.1)), qmax (intQ 20) (p.2.y.getD (dfltY p.1))⟩ := rfl

theorem genNodes_positions (data : GenData) :
    ∀ n ∈ genNodesOf data, ∃ p ∈ data.nodes.enum,
      n.position.x = qmax (intQ 20) (p.2.x.getD (dfltX p.1)) ∧
      n.position.y = qmax (intQ 20) (p.2.y.getD (dfltY p.1)) := by
  intro n hn
  have hmem : ∃ n0 ∈ normalizeGenNodes data.nodes, n.position = n0.position := by
    unfold genNodesOf at hn
    by_cases hc : (decide (0 < (normalizeGenNodes data.nodes).length) &&
        !((normalizeGenNodes data.nodes).any (fun n => n.is_start))) = true
    · rw [if_pos hc] at hn
      rcases mem_setHeadStart _ n hn with h' | ⟨n0, hn0, he⟩
      · exact ⟨n, h', rfl⟩
      · exact ⟨n0, hn0, by rw [he]⟩
    · rw [if_neg hc] at hn
      exact ⟨n, hn, rfl⟩
  rcases hmem with ⟨n0, hn0, hpos⟩
  rcases List.mem_map.mp hn0 with ⟨p, hp, hpe⟩
  refine ⟨p, hp, ?_, ?_⟩
  · rw [hpos, ← hpe, mkGenNode_position]
  · rw [hpos, ← hpe, mkGenNode_position]

/-! ## Node order in the Visio output -/

theorem parseVisio_map_visioId (page : PageXml) (masters : Option (List MasterIn)) :
    (parseVisioXml page masters).nodes.map Node.visioId =
      (orderedShapesOf page masters).map (fun s => some s.shapeId) := by
  show (applyFallback (preNodesOf page masters)).map Node.visioId = _
  rw [applyFallback_map_visioId]
  exact buildNodesGo_map_visioId _ _ (orderedShapes_not_connector page masters) 0 []

theorem parseVisio_map_tempId (page : PageXml) (masters : Option (List MasterIn)) :
    (parseVisioXml page masters).nodes.map Node.tempId =
      (List.range' 0 (orderedShapesOf page masters).length).map mkNodeId := by
  show (applyFallback (preNodesOf page masters)).map Node.tempId = _
  rw [applyFallback_map_tempId]
  exact buildNodesGo_map_tempId _ _ (orderedShapes_not_connector page masters) 0 []

theorem orderedShapes_eq_sort_of_empty (page : PageXml) (masters : Option (List MasterIn))
    (h : noIncomingShapes page masters = []) :
    orderedShapesOf page masters = jsSortShapes (rawShapesOf page masters) := by
  unfold orderedShapesOf
  rw [if_pos (by rw [h]; rfl)]

theorem orderedShapes_eq_raw_of_nonempty (page : PageXml) (masters : Option (List MasterIn))
    (h : noIncomingShapes page masters ≠ []) :
    orderedShapesOf page masters = rawShapesOf page masters := by
  unfold orderedShapesOf
  rw [if_neg (by simpa [List.isEmpty_iff] using h)]

theorem jsSortShapes_sorted (l : List RawShape) : List.Pairwise shapeBefore (jsSortShapes l) :=
  List.sorted_insertionSort shapeBefore l

/-! ## The post-assembly fallback in detail -/

theorem applyFallback_fires (ns : List Node) (hany : ns.any (fun n => n.is_start) = false)
    (hne : ns ≠ []) :
    ∃ m ∈ ns, (∀ c ∈ ns, nodeBefore m c) ∧
      ∃ n' ∈ applyFallback ns, n'.tempId = m.tempId ∧ n'.is_start = true ∧
        n'.type = "question" := by
  rcases sortedHeadMin nodeBefore ns hne with ⟨a, t, hsort, hmem, hmin⟩
  refine ⟨a, hmem, hmin, ?_⟩
  have hh : (jsSortNodes ns).head? = some a := by
    show (List.insertionSort nodeBefore ns).head? = some a
    rw [hsort]
    rfl
  have hcond : (!(ns.any (fun n => n.is_start)) && decide (0 < ns.length)) = true := by
    rw [hany]
    simp [List.length_pos, hne]
  have happ : applyFallback ns = setStartFirst ns a.tempId := by
    unfold applyFallback
    rw [hcond, if_pos rfl, hh]
  rw [happ]
  exact setStartFirst_sets ns a.tempId (List.mem_map.mpr ⟨a, hmem, rfl⟩)

/-! ## The claims -/

/-- C3: in the Visio path the start shape is selected by exactly this
procedure: among retained shapes whose id never appears as the `to` end of
a resolved wire, prefer one flagged `isTerminator`; otherwise pick the
candidate with the greatest vertical coordinate, ties broken by the
smallest horizontal coordinate; and when every shape has an incoming wire,
apply the same tie-break over all retained shapes. -/
theorem c3_start_selection (page : PageXml) (masters : Option (List MasterIn)) :
    ((∃ s ∈ noIncomingShapes page masters, s.isTerminator = true) →
      ∃ s, startShapeOf page masters = some s ∧ s ∈ noIncomingShapes page masters ∧
        s.isTerminator = true) ∧
    ((∀ s ∈ noIncomingShapes page masters, s.isTerminator = false) →
      noIncomingShapes page masters ≠ [] →
      ∃ s, startShapeOf page masters = some s ∧ s ∈ noIncomingShapes page masters ∧
        ∀ c ∈ noIncomingShapes page masters,
          c.pinY ≤ s.pinY ∧ (c.pinY = s.pinY → s.pinX ≤ c.pinX)) ∧
    (noIncomingShapes page masters = [] → rawShapesOf page masters ≠ [] →
      ∃ s, startShapeOf page masters = some s ∧ s ∈ rawShapesOf page masters ∧
        ∀ c ∈ rawShapesOf page masters,
          c.pinY ≤ s.pinY ∧ (c.pinY = s.pinY → s.pinX ≤ c.pinX)) := by
  have hcons : ∀ (l : List RawShape) (s : RawShape), (∀ x ∈ l, shapeBefore s x) →
      ∀ c ∈ l, c.pinY ≤ s.pinY ∧ (c.pinY = s.pinY → s.pinX ≤ c.pinX) := by
    intro l s hmin c hc
    rcases hmin c hc with h | ⟨h1, h2⟩
    · exact ⟨h.le, fun he => absurd (he ▸ h) (lt_irrefl _)⟩
    · exact ⟨h1.ge, fun _ => h2⟩
  refine ⟨?_, ?_, ?_⟩
  · rintro ⟨s0, hs0, hterm⟩
    unfold startShapeOf chooseStart
    rcases hf : (noIncomingShapes page masters).find? (fun s => s.isTerminator) with _ | sf
    · rw [List.find?_eq_none] at hf
      exact absurd hterm (by simpa using hf s0 hs0)
    · simp only [hf]
      exact ⟨sf, rfl, List.mem_of_find?_eq_some hf, by simpa using List.find?_some hf⟩
  · intro hno hne
    unfold startShapeOf chooseStart
    have hf : (noIncomingShapes page masters).find? (fun s => s.isTerminator) = none := by
      rw [List.find?_eq_none]
      intro x hx
      simp [hno x hx]
    rw [hf]
    rcases sortedHeadMin shapeBefore (noIncomingShapes page masters) hne with
      ⟨a, t, hsort, hmem, hmin⟩
    have hh : (jsSortShapes (noIncomingShapes page masters)).head? = some a := by
      show (List.insertionSort shapeBefore (noIncomingShapes page masters)).head? = some a
      rw [hsort]
      rfl
    rw [hh]
    exact ⟨a, rfl, hmem, hcons _ a hmin⟩
  · intro hempty hne
    unfold startShapeOf chooseStart
    rw [hempty]
    rcases sortedHeadMin shapeBefore (rawShapesOf page masters) hne with
      ⟨a, t, hsort, hmem, hmin⟩
    have hh : (jsSortShapes (rawShapesOf page masters)).head? = some a := by
      show (List.insertionSort shapeBefore (rawShapesOf page masters)).head? = some a
      rw [hsort]
      rfl
    simp only [List.find?_nil, jsSortShapes, List.insertionSort, List.head?_nil]
    exact ⟨a, by rw [hsort]; rfl, hmem, hcons _ a hmin⟩

/-- C3 witness: on Scenario B the only shape without an incoming wire is
the `Begin` shape, no candidate is a terminator, and the selection returns
it as the topmost-leftmost candidate. -/
theorem c3_start_selection_witness :
    ∃ s, startShapeOf pageScenarioB none = some s ∧
      s ∈ noIncomingShapes pageScenarioB none ∧
      ∀ c ∈ noIncomingShapes pageScenarioB none,
        c.pinY ≤ s.pinY ∧ (c.pinY = s.pinY → s.pinX ≤ c.pinX) :=
  (c3_start_selection pageScenarioB none).2.1 (by decide) (by decide)

/-- C9: a `Connect` record with `FromPart = "9"` sets the connector's
source end to the referenced `ToSheet` id, `FromPart = "12"` sets the
target end, later records overwrite earlier ones, other discriminators set
neither end, and records sharing a `FromSheet` connector id are merged
into a single entry. -/
theorem c9_wiring_table (cs : List ConnectRec) (k : String) :
    (((buildConnectorMap cs).map Prod.fst).Nodup) ∧
    (alookup (buildConnectorMap cs) k =
      if cs.filter (fun c => c.fromSheet == k) = [] then none
      else some ⟨lastToSheet "9" (cs.filter (fun c => c.fromSheet == k)),
                 lastToSheet "12" (cs.filter (fun c => c.fromSheet == k))⟩) :=
  ⟨buildConnectorMap_keys_nodup cs, buildConnectorMap_lookup cs k⟩

/-- C1 counterexample: the adapter, fed a response in which two nodes are
flagged `is_start`, produces a graph with two nodes and two start nodes —
not exactly one. -/
theorem c1_counterexample :
    (handleGenerate dataTwoStarts).map (fun g => (g.nodes.length, countStarts g.nodes)) =
      some (2, 2) ∧ (2 : Nat) ≠ 1 :=
  ⟨by decide, by decide⟩

/-- C1 amended: every produced graph with at least one node has **at
least** one start node; it has exactly one provided the retained Visio
shapes carry pairwise-distinct ids (Visio path) or at most one input node
is flagged `is_start` (adapter path). -/
theorem c1_single_start (page : PageXml) (masters : Option (List MasterIn)) (data : GenData)
    (g : GenResult) :
    ((parseVisioXml page masters).nodes ≠ [] →
      0 < countStarts (parseVisioXml page masters).nodes) ∧
    (((rawShapesOf page masters).map RawShape.shapeId).Nodup →
      (parseVisioXml page masters).nodes ≠ [] →
      countStarts (parseVisioXml page masters).nodes = 1) ∧
    (handleGenerate data = some g → 0 < countStarts g.nodes) ∧
    (handleGenerate data = some g → data.nodes.countP (fun n => n.is_start) ≤ 1 →
      countStarts g.nodes = 1) := by
  refine ⟨fun hne => visio_countStarts_pos page masters hne,
    fun hnodup hne => visio_countStarts_eq_one page masters hnodup hne, ?_, ?_⟩
  · intro h
    rcases handleGenerate_eq_some data g h with ⟨hn, _, _, hne⟩
    rw [hn]
    exact genNodesOf_countStarts_pos data hne
  · intro h hle
    rcases handleGenerate_eq_some data g h with ⟨hn, _, _, hne⟩
    rw [hn]
    exact genNodesOf_countStarts_eq_one data hne hle

/-- C1 witness: Scenario B yields exactly one start node, and the adapter
on a single-flagged response yields exactly one start node. -/
theorem c1_single_start_witness :
    0 < countStarts (parseVisioXml pageScenarioB none).nodes ∧
    countStarts (parseVisioXml pageScenarioB none).nodes = 1 ∧
    0 < countStarts genOneStartResult.nodes ∧
    countStarts genOneStartResult.nodes = 1 := by
  have h := c1_single_start pageScenarioB none dataOneStart genOneStartResult
  exact ⟨h.1 (by decide), h.2.1 (by decide) (by decide),
    h.2.2.1 (by rfl), h.2.2.2 (by rfl) (by decide)⟩

/-- C2: in both import paths every emitted edge's `sourceId` and
`targetId` equal the `tempId` of a node present in the same output (an
edge with an unresolved endpoint is dropped, never emitted with a null
reference). -/
theorem c2_edge_integrity (page : PageXml) (masters : Option (List MasterIn)) (data : GenData)
    (g : GenResult) :
    (∀ e ∈ (parseVisioXml page masters).edges,
      (∃ n ∈ (parseVisioXml page masters).nodes, e.sourceId = some n.tempId) ∧
      (∃ n ∈ (parseVisioXml page masters).nodes, e.targetId = some n.tempId)) ∧
    (handleGenerate data = some g →
      ∀ e ∈ g.edges,
        (∃ n ∈ g.nodes, e.sourceId = some n.tempId) ∧
        (∃ n ∈ g.nodes, e.targetId = some n.tempId)) := by
  refine ⟨visio_edge_endpoints page masters, ?_⟩
  intro h e he
  rcases handleGenerate_eq_some data g h with ⟨hn, hedges, _, _⟩
  rw [hn]
  rw [hedges] at he
  exact gen_edge_endpoints data e he

/-- C2 witness: the first parsed edge of Scenario B points at emitted
nodes on both ends. -/
theorem c2_edge_integrity_witness :
    (∃ n ∈ (parseVisioXml pageScenarioB none).nodes, edgeB0.sourceId = some n.tempId) ∧
    (∃ n ∈ (parseVisioXml pageScenarioB none).nodes, edgeB0.targetId = some n.tempId) := by
  have h := (c2_edge_integrity pageScenarioB none dataScenarioD
    { nodes := genNodesOf dataScenarioD, edges := genEdgesOf dataScenarioD,
      warnings := genWarningsOf dataScenarioD }).1 edgeB0 (by decide)
  exact h

/-- C4: in the Visio path every node flagged as the start is emitted with
type `question`, and every node built from the chosen start shape is the
start with type `question` — the override applies even when the chosen
shape carries an explicitly-classified terminator/result stencil. -/
theorem c4_start_forced_question (page : PageXml) (masters : Option (List MasterIn)) :
    (∀ n ∈ (parseVisioXml page masters).nodes, n.is_start = true → n.type = "question") ∧
    (∀ v, startShapeIdOf page masters = some v →
      ∀ n ∈ (parseVisioXml page masters).nodes, n.visioId = some v →
        n.is_start = true ∧ n.type = "question") :=
  ⟨visio_start_question page masters,
   fun v hv n hn hvis => visio_chosen_question page masters v hv n hn hvis⟩

/-- C4 witness: on a page whose unique entry point is an explicit
`Terminator` stencil, the emitted entry node is the start and has type
`question`, not `result`. -/
theorem c4_start_forced_question_witness :
    ({ tempId := mkNodeId 0, visioId := some "1", title := "End here", type := "question",
       position := ⟨intQ 96, intQ 192⟩, body := "", is_start := true,
       masterName := "terminator", resolution := none } : Node).is_start = true ∧
    ({ tempId := mkNodeId 0, visioId := some "1", title := "End here", type := "question",
       position := ⟨intQ 96, intQ 192⟩, body := "", is_start := true,
       masterName := "terminator", resolution := none } : Node).type = "question" := by
  exact (c4_start_forced_question pageResultStart (some mastersResultStart)).2 "1" (by decide)
    _ (by decide) (by decide)

/-- C5 counterexample: on a page where the pre-fallback node list is
non-empty and carries no start (the selected shape's empty `ID` collapses
to `null`), the fallback fires — yet the upload handler's warning list
contains no missing-start warning, because that check runs after the
fallback has already assigned a start. -/
theorem c5_counterexample :
    (preNodesOf pageEmptyId none).any (fun n => n.is_start) = false ∧
    preNodesOf pageEmptyId none ≠ [] ∧
    handleVisioFile pageEmptyId none =
      Except.ok (parseVisioXml pageEmptyId none, [noMastersMsg, noConnectorsMsg]) ∧
    noStartMsg ∉ [noMastersMsg, noConnectorsMsg] :=
  ⟨by decide, by decide, by rfl, by decide⟩

/-- C5 amended: if after conversion no node carries `is_start` and the
list is non-empty, the node with smallest (y, then x) position is forced
to `is_start = true` and type `question`; however **no** warning is
recorded for this — the upload handler's missing-start warning can never
appear in a successful import, since the fallback always assigns a start
first. -/
theorem c5_fallback_no_warning (page : PageXml) (masters : Option (List MasterIn)) :
    ((preNodesOf page masters).any (fun n => n.is_start) = false →
      preNodesOf page masters ≠ [] →
      ∃ m ∈ preNodesOf page masters,
        (∀ c ∈ preNodesOf page masters,
          m.position.y < c.position.y ∨
            (m.position.y = c.position.y ∧ m.position.x ≤ c.position.x)) ∧
        ∃ n' ∈ (parseVisioXml page masters).nodes,
          n'.tempId = m.tempId ∧ n'.is_start = true ∧ n'.type = "question") ∧
    (∀ g ws, handleVisioFile page masters = Except.ok (g, ws) → noStartMsg ∉ ws) := by
  constructor
  · intro hany hne
    rcases applyFallback_fires (preNodesOf page masters) hany hne with ⟨m, hm, hmin, hrest⟩
    exact ⟨m, hm, fun c hc => hmin c hc, hrest⟩
  · intro g ws h
    rcases handleVisioFile_ok_parts page masters g ws h with ⟨hg, hws, hne⟩
    have hpre : preNodesOf page masters ≠ [] := by
      intro h0
      apply hne
      rw [hg]
      show applyFallback (preNodesOf page masters) = []
      rw [h0]
      rfl
    have hany : g.nodes.any (fun n => n.is_start) = true := by
      rw [hg]
      exact applyFallback_any_start _ hpre
    rw [hws]
    exact noStartMsg_not_mem_visioWarnings masters g hany

/-- C5 witness: on the empty-`ID` page the fallback fires, the single node
is forced to start/question, and no successful import of that page ever
reports the missing-start warning. -/
theorem c5_fallback_no_warning_witness :
    (∃ m ∈ preNodesOf pageEmptyId none,
      (∀ c ∈ preNodesOf pageEmptyId none,
        m.position.y < c.position.y ∨
          (m.position.y = c.position.y ∧ m.position.x ≤ c.position.x)) ∧
      ∃ n' ∈ (parseVisioXml pageEmptyId none).nodes,
        n'.tempId = m.tempId ∧ n'.is_start = true ∧ n'.type = "question") ∧
    noStartMsg ∉ [noMastersMsg, noConnectorsMsg] := by
  have h := c5_fallback_no_warning pageEmptyId none
  exact ⟨h.1 (by decide) (by decide),
    h.2 (parseVisioXml pageEmptyId none) [noMastersMsg, noConnectorsMsg] (by rfl)⟩

/-- C6 counterexample: in Scenario B (masters catalog absent) the shape
labeled `Resolved` matches the resolution-keyword heuristic (`resolv`),
so it is emitted with type `result`, not `question` as the claim states. -/
theorem c6_counterexample :
    (∃ n ∈ (parseVisioXml pageScenarioB none).nodes,
      n.title = "Resolved" ∧ n.type = "result") ∧
    ¬(∃ n ∈ (parseVisioXml pageScenarioB none).nodes,
      n.title = "Resolved" ∧ n.type = "question") :=
  ⟨by decide, by decide⟩

/-- C6 amended: in Scenario B classification is driven purely by label
heuristics, `Begin` becomes the start with forced type `question`,
`Card valid?` becomes `question`, and `Resolved` — whose label contains
the resolution keyword `resolv` — becomes `result`; both edges resolve
and the only warning names the missing catalog. -/
theorem c6_scenarioB :
    (parseVisioXml pageScenarioB none).nodes.map (fun n => (n.title, n.type, n.is_start)) =
      [("Begin", "question", true), ("Card valid?", "question", false),
       ("Resolved", "result", false)] ∧
    (parseVisioXml pageScenarioB none).edges.map (fun e => (e.sourceId, e.targetId)) =
      [(some (mkNodeId 0), some (mkNodeId 1)), (some (mkNodeId 1), some (mkNodeId 2))] ∧
    handleVisioFile pageScenarioB none =
      Except.ok (parseVisioXml pageScenarioB none, [noMastersMsg]) :=
  ⟨by decide, by decide, by rfl⟩

/-- C7 counterexample: with one fully wired connector and one connector
whose `to` record is missing, the import succeeds with one edge and its
complete warning list is a single node-type info message — no warning
counts the dropped connector. -/
theorem c7_counterexample :
    alookup (buildConnectorMap pageHalfWire.connects) "4" = some ⟨some "1", none⟩ ∧
    (parseVisioXml pageHalfWire (some [])).edges.length = 1 ∧
    handleVisioFile pageHalfWire (some []) =
      Except.ok (parseVisioXml pageHalfWire (some []), [detectedMsg 2 0]) :=
  ⟨by decide, by decide, by rfl⟩

/-- C7 amended: a connector whose wiring record resolves only one side
contributes zero edges (each raw edge comes from a fully resolved wire)
and no fatal error is raised; but no warning counts such connectors — the
only connector-related warning is the generic no-connectors message,
present exactly when the output edge list is empty. -/
theorem c7_half_resolved (page : PageXml) (masters : Option (List MasterIn)) :
    ((rawEdgesOf page masters).length =
      (page.shapes.filter (fun sh =>
        shapeIsConnector (parseMasters masters) (buildConnectorMap page.connects) sh &&
        shapeWireResolved (buildConnectorMap page.connects) sh)).length) ∧
    ((parseVisioXml page masters).nodes ≠ [] →
      handleVisioFile page masters =
        Except.ok (parseVisioXml page masters,
          visioWarnings masters (parseVisioXml page masters))) ∧
    (∀ g ws, handleVisioFile page masters = Except.ok (g, ws) →
      (noConnectorsMsg ∈ ws ↔ g.edges = [])) := by
  refine ⟨collectGo_edges_length _ _ page.shapes 0, handleVisioFile_ok_of_nodes page masters, ?_⟩
  intro g ws h
  rcases handleVisioFile_ok_parts page masters g ws h with ⟨_, hws, _⟩
  rw [hws]
  exact noConnectorsMsg_mem_visioWarnings_iff masters g

/-- C7 witness: on the half-wired page the edge count equals the count of
fully resolved connector shapes, the import succeeds, and the
no-connectors warning appears exactly when the edge list is empty (here it
is not). -/
theorem c7_half_resolved_witness :
    (rawEdgesOf pageHalfWire (some [])).length =
      (pageHalfWire.shapes.filter (fun sh =>
        shapeIsConnector (parseMasters (some [])) (buildConnectorMap pageHalfWire.connects) sh &&
        shapeWireResolved (buildConnectorMap pageHalfWire.connects) sh)).length ∧
    handleVisioFile pageHalfWire (some []) =
      Except.ok (parseVisioXml pageHalfWire (some []),
        visioWarnings (some []) (parseVisioXml pageHalfWire (some []))) ∧
    (noConnectorsMsg ∈ visioWarnings (some []) (parseVisioXml pageHalfWire (some [])) ↔
      (parseVisioXml pageHalfWire (some [])).edges = []) := by
  have h := c7_half_resolved pageHalfWire (some [])
  exact ⟨h.1, h.2.1 (by decide), h.2.2 _ _ (h.2.1 (by decide))⟩

/-- C8 counterexample: the adapter clamps a negative x coordinate to 20,
not to the 0 floor stated by the claim. -/
theorem c8_counterexample :
    (handleGenerate dataNegPos).map (fun g => g.nodes.map (fun n => n.position.x)) =
      some [intQ 20] ∧
    specClampZero (some (intQ (-5))) (dfltX 0) = intQ 0 ∧
    intQ 20 ≠ intQ 0 :=
  ⟨by decide, by decide, by decide⟩

/-- C8 amended: every emitted adapter node's coordinates are the provided
coordinates (or the computed grid default when absent) clamped to a
minimum of **20**, not 0. -/
theorem c8_position_clamp (data : GenData) (g : GenResult)
    (h : handleGenerate data = some g) :
    ∀ n ∈ g.nodes, ∃ p ∈ data.nodes.enum,
      n.position.x = qmax (intQ 20) (p.2.x.getD (dfltX p.1)) ∧
      n.position.y = qmax (intQ 20) (p.2.y.getD (dfltY p.1)) := by
  rcases handleGenerate_eq_some data g h with ⟨hn, _, _, _⟩
  rw [hn]
  exact genNodes_positions data

/-- C8 witness: the clamp characterization instantiated on the concrete
negative-coordinate response. -/
theorem c8_position_clamp_witness :
    ∃ p ∈ dataNegPos.nodes.enum,
      (intQ 20 : ℚ) = qmax (intQ 20) (p.2.x.getD (dfltX p.1)) ∧
      (intQ 20 : ℚ) = qmax (intQ 20) (p.2.y.getD (dfltY p.1)) := by
  have h := c8_position_clamp dataNegPos genNegPosResult (by rfl)
    { tempId := mkNodeId 0, visioId := none, title := "T", type := "question",
      position := ⟨intQ 20, intQ 20⟩, body := "", is_start := true,
      masterName := "AI-generated", resolution := some "" } (by decide)
  exact h

/-- C10: when every retained shape has an incoming wire, the start
inference sorts the shape array in place, so the emitted node list follows
the descending-`PinY`, ties-ascending-`PinX` order rather than document
order (which is used whenever some shape has no incoming wire); canonical
tempIds are assigned sequentially over that final order. -/
theorem c10_inplace_sort (page : PageXml) (masters : Option (List MasterIn)) :
    (noIncomingShapes page masters = [] →
      orderedShapesOf page masters = jsSortShapes (rawShapesOf page masters) ∧
      List.Pairwise shapeBefore (orderedShapesOf page masters) ∧
      (parseVisioXml page masters).nodes.map Node.visioId =
        (jsSortShapes (rawShapesOf page masters)).map (fun s => some s.shapeId)) ∧
    (noIncomingShapes page masters ≠ [] →
      (parseVisioXml page masters).nodes.map Node.visioId =
        (rawShapesOf page masters).map (fun s => some s.shapeId)) ∧
    (parseVisioXml page masters).nodes.map Node.tempId =
      (List.range' 0 (orderedShapesOf page masters).length).map mkNodeId := by
  refine ⟨?_, ?_, parseVisio_map_tempId page masters⟩
  · intro h
    have he := orderedShapes_eq_sort_of_empty page masters h
    refine ⟨he, ?_, ?_⟩
    · rw [he]
      exact jsSortShapes_sorted _
    · rw [← he]
      exact parseVisio_map_visioId page masters
  · intro h
    have he := orderedShapes_eq_raw_of_nonempty page masters h
    rw [← he]
    exact parseVisio_map_visioId page masters

/-- C10 witness: on the fully cyclic page the emitted order is the sorted
order, and on Scenario B (which has a start candidate) the document order
is kept. -/
theorem c10_inplace_sort_witness :
    List.Pairwise shapeBefore (orderedShapesOf pageCyclic none) ∧
    (parseVisioXml pageScenarioB none).nodes.map Node.visioId =
      (rawShapesOf pageScenarioB none).map (fun s => some s.shapeId) :=
  ⟨((c10_inplace_sort pageCyclic none).1 (by decide)).2.1,
   (c10_inplace_sort pageScenarioB none).2.1 (by decide)⟩
